import Mathlib

/-!
# MeanShiftGPU: the host program `main.c`

A shallow embedding of `main.c` (the host side of the OpenCL mean-shift demo)
and the properties of its iteration loop and of its brute-force verifier.

Modelling conventions.

* The numeric code is embedded twice.
  - In exact arithmetic: `cl_float` is `ℝ`, `cl_float2` is `Point`, and `sqrtf`,
    `expf`, `powf (·, 2.f)`, `M_PI` are the real square root, exponential, square
    and `π`. These are the definitions that carry the source's names; the
    properties stated "over the reals" are about them.
  - In IEEE 754 binary32: `cl_float` is `F32`, `cl_float2` is `Point32`, and every
    operation rounds its exact result to the nearest binary32 number, ties to
    even (`round32`), with overflow to an infinity, gradual underflow and NaN.
    These definitions carry the suffix `_f32`; they say what the compiled
    arithmetic does. The sign of zero is not tracked, `sqrtf`, `expf` and `powf`
    are taken as correctly rounded, and no operation is fused.
  Neither set of definitions is computable (both go through `ℝ`); they are
  evaluated by rewriting.
* A buffer (`cl_float2 *` with `NUM_VALUES` elements) is a list; the read `a[i]`
  is `a.getD i default`.
* The counters `i`, `j` of `verify_mean_shift` are natural numbers: its only
  caller passes `NUM_VALUES`, an `int`, so the `int` counters never wrap.
* `iteration` and `MAX_ITERATIONS` are `int` in the source and `Int` here;
  `iteration` is only incremented up to `max MAX_ITERATIONS 1`, so it never
  wraps either.
-/

namespace MeanShiftGPU

/-- The OpenCL vector type `cl_float2`, fields `x` and `y`, in exact arithmetic. -/
@[ext]
structure Point where
  x : ℝ
  y : ℝ

instance : Inhabited Point := ⟨⟨0, 0⟩⟩

/-- Source `euclidian_distance` in exact arithmetic:
`sqrtf(powf(p1.x - p2.x, 2.f) + powf(p1.y - p2.y, 2.f))`. -/
noncomputable def euclidian_distance (p1 p2 : Point) : ℝ :=
  Real.sqrt ((p1.x - p2.x) ^ 2 + (p1.y - p2.y) ^ 2)

/-- Source `gaussian_kernel` in exact arithmetic (no rounding, no underflow):
`(1.f / (bandwidth * sqrtf(2.f * M_PI))) * expf(-0.5f * powf(dist / bandwidth, 2.f))`. -/
noncomputable def gaussian_kernel (dist bandwidth : ℝ) : ℝ :=
  (1 / (bandwidth * Real.sqrt (2 * Real.pi))) *
    Real.exp (-0.5 * (dist / bandwidth) ^ 2)

/-- The locals `shift.x`, `shift.y` and `scale` of `verify_mean_shift`. -/
structure Accum where
  shift : Point
  scale : ℝ

/-- The body of the inner loop of `verify_mean_shift` (lines 164-169) for the
target point `p` and the original point `o = original_points[j]`. -/
noncomputable def accumulate (p : Point) (bandwidth : ℝ) (acc : Accum) (o : Point) : Accum :=
  let dist := euclidian_distance p o
  let weight := gaussian_kernel dist bandwidth
  { shift := ⟨acc.shift.x + o.x * weight, acc.shift.y + o.y * weight⟩
    scale := acc.scale + weight }

/-- The inner loop `for (int j = 0; j < num_points; j++)` of `verify_mean_shift`,
started from `shift = { 0, 0 }`, `scale = 0`. -/
noncomputable def inner_loop (p : Point) (original_points : List Point) (num_points : ℕ)
    (bandwidth : ℝ) : Accum :=
  (List.range num_points).foldl
    (fun acc j => accumulate p bandwidth acc (original_points.getD j default))
    ⟨⟨0, 0⟩, 0⟩

/-- The reference shift of one target point: `{ shift.x / scale, shift.y / scale }`. -/
noncomputable def shift_point (p : Point) (original_points : List Point) (num_points : ℕ)
    (bandwidth : ℝ) : Point :=
  let acc := inner_loop p original_points num_points bandwidth
  ⟨acc.shift.x / acc.scale, acc.shift.y / acc.scale⟩

/-- The local `expected` of `verify_mean_shift` at index `i`: the reference shift
of `points[i]` against the original set. -/
noncomputable def expected (points original_points : List Point) (num_points : ℕ)
    (bandwidth : ℝ) (i : ℕ) : Point :=
  shift_point (points.getD i default) original_points num_points bandwidth

/-- What a call of `verify_mean_shift` produces: the `int` it returns and the
element index printed in its `Error:` line, if one is printed. -/
structure VerifyResult where
  ret : Int
  reported : Option ℕ

/-- The outer loop of `verify_mean_shift` over the remaining indices, in exact
arithmetic (`expected` is always a number): at the first index where `fabs(shifted_points[i].x - expected.x) > 0.01 ||
fabs(shifted_points[i].y - expected.y) > 0.01` the index is printed and `0`
returned; `1` is returned once the indices are exhausted. -/
noncomputable def verify_from (points original_points : List Point) (num_points : ℕ)
    (bandwidth : ℝ) (shifted_points : List Point) : List ℕ → VerifyResult
  | [] => ⟨1, none⟩
  | i :: rest =>
    if |(shifted_points.getD i default).x
          - (expected points original_points num_points bandwidth i).x| > 0.01 ∨
       |(shifted_points.getD i default).y
          - (expected points original_points num_points bandwidth i).y| > 0.01 then
      ⟨0, some i⟩
    else
      verify_from points original_points num_points bandwidth shifted_points rest

/-- Source `verify_mean_shift` in exact arithmetic:
`for (int i = 0; i < num_points; i++)`. -/
noncomputable def verify_mean_shift (points original_points : List Point) (num_points : ℕ)
    (bandwidth : ℝ) (shifted_points : List Point) : VerifyResult :=
  verify_from points original_points num_points bandwidth shifted_points
    (List.range num_points)

/-! ## `cl_float` as IEEE 754 binary32 -/

/-- A `cl_float` value in binary32: a finite number, an infinity (`negative = true`
for `-inf`) or NaN. A finite value stands for a representable number; the sign of
zero is not tracked. -/
inductive F32 where
  | fin (v : ℝ)
  | inf (negative : Bool)
  | nan

/-- Rounding of a real to the nearest integer, ties to the even one. -/
noncomputable def round_half_even (m : ℝ) : ℤ :=
  if m - ⌊m⌋ < 1 / 2 then ⌊m⌋
  else if 1 / 2 < m - ⌊m⌋ then ⌊m⌋ + 1
  else if ⌊m⌋ % 2 = 0 then ⌊m⌋ else ⌊m⌋ + 1

/-- The exponent of the unit in the last place of binary32 at `x`: 24 significant
bits, and the exponent of `x` is not taken below `-126` (subnormal numbers). -/
noncomputable def ulp_exponent (x : ℝ) : ℤ := max (Int.log 2 |x|) (-126) - 23

/-- The multiple of the unit in the last place nearest to `x`, ties to even. -/
noncomputable def nearest32 (x : ℝ) : ℝ :=
  (round_half_even (x / 2 ^ ulp_exponent x) : ℝ) * 2 ^ ulp_exponent x

/-- The binary32 result of an operation whose exact result is `x`: the nearest
number, or the infinity of the sign of `x` when that number reaches `2 ^ 128`. -/
noncomputable def round32 (x : ℝ) : F32 :=
  if (2 : ℝ) ^ 128 ≤ |nearest32 x| then F32.inf (decide (x < 0)) else F32.fin (nearest32 x)

namespace F32

/-- Binary32 `a + b`. -/
noncomputable def add : F32 → F32 → F32
  | fin a, fin b => round32 (a + b)
  | fin _, inf s => inf s
  | inf s, fin _ => inf s
  | inf s, inf t => if s = t then inf s else nan
  | _, _ => nan

/-- Binary32 `a - b`. -/
noncomputable def sub : F32 → F32 → F32
  | fin a, fin b => round32 (a - b)
  | fin _, inf s => inf (!s)
  | inf s, fin _ => inf s
  | inf s, inf t => if s = t then nan else inf s
  | _, _ => nan

/-- Binary32 `a * b`. -/
noncomputable def mul : F32 → F32 → F32
  | fin a, fin b => round32 (a * b)
  | fin a, inf s => if a = 0 then nan else inf (xor (decide (a < 0)) s)
  | inf s, fin b => if b = 0 then nan else inf (xor s (decide (b < 0)))
  | inf s, inf t => inf (xor s t)
  | _, _ => nan

/-- Binary32 `a / b`; `0 / 0` is NaN and a non-zero number over zero is an
infinity (of the sign of the numerator, the zero being taken as `+0`). -/
noncomputable def div : F32 → F32 → F32
  | fin a, fin b =>
    if b = 0 then (if a = 0 then nan else inf (decide (a < 0))) else round32 (a / b)
  | fin _, inf _ => fin 0
  | inf s, fin b => inf (xor s (decide (b < 0)))
  | _, _ => nan

/-- The comparison `a > c` with a constant: false when `a` is NaN. -/
noncomputable def gt_const : F32 → ℝ → Bool
  | fin v, c => decide (c < v)
  | inf s, _ => !s
  | nan, _ => false

/-- The comparison `a <= c` with a constant: false when `a` is NaN. -/
def le_const : F32 → ℝ → Prop
  | fin v, c => v ≤ c
  | inf s, _ => s = true
  | nan, _ => False

end F32

/-- Binary32 `sqrtf`. -/
noncomputable def sqrtf : F32 → F32
  | F32.fin a => if a < 0 then F32.nan else round32 (Real.sqrt a)
  | F32.inf s => if s then F32.nan else F32.inf false
  | F32.nan => F32.nan

/-- Binary32 `expf`. -/
noncomputable def expf : F32 → F32
  | F32.fin a => round32 (Real.exp a)
  | F32.inf s => if s then F32.fin 0 else F32.inf false
  | F32.nan => F32.nan

/-- Binary32 `powf(a, 2.f)`. -/
noncomputable def powf_two : F32 → F32
  | F32.fin a => round32 (a ^ 2)
  | F32.inf _ => F32.inf false
  | F32.nan => F32.nan

/-- The function `fabs`, applied in the source to a `float` promoted to `double`
(an exact conversion). -/
def fabs : F32 → F32
  | F32.fin a => F32.fin |a|
  | F32.inf _ => F32.inf false
  | F32.nan => F32.nan

/-- The constant `(float)M_PI`, the binary32 number `0x40490FDB`. -/
noncomputable def pi_f32 : F32 := F32.fin (13176795 / 4194304)

/-- The `double` constant `0.01` of lines 174-175, the binary64 number nearest to
one hundredth. -/
noncomputable def double_0_01 : ℝ := 5764607523034235 / 576460752303423488

/-- The type `cl_float2` in binary32. -/
structure Point32 where
  x : F32
  y : F32

instance : Inhabited Point32 := ⟨⟨F32.fin 0, F32.fin 0⟩⟩

/-- Source `euclidian_distance` in binary32:
`sqrtf(powf(p1.x - p2.x, 2.f) + powf(p1.y - p2.y, 2.f))`. -/
noncomputable def euclidian_distance_f32 (p1 p2 : Point32) : F32 :=
  sqrtf (F32.add (powf_two (F32.sub p1.x p2.x)) (powf_two (F32.sub p1.y p2.y)))

/-- Source `gaussian_kernel` in binary32:
`(1.f / (bandwidth * sqrtf(2.f * (float)M_PI))) * expf(-0.5f * powf(dist / bandwidth, 2.f))`. -/
noncomputable def gaussian_kernel_f32 (dist bandwidth : F32) : F32 :=
  F32.mul (F32.div (F32.fin 1) (F32.mul bandwidth (sqrtf (F32.mul (F32.fin 2) pi_f32))))
    (expf (F32.mul (F32.fin (-0.5)) (powf_two (F32.div dist bandwidth))))

/-- The locals `shift.x`, `shift.y` and `scale` of `verify_mean_shift` in binary32. -/
structure Accum32 where
  shift : Point32
  scale : F32

/-- The body of the inner loop of `verify_mean_shift` (lines 164-169) in binary32. -/
noncomputable def accumulate_f32 (p : Point32) (bandwidth : F32) (acc : Accum32)
    (o : Point32) : Accum32 :=
  let dist := euclidian_distance_f32 p o
  let weight := gaussian_kernel_f32 dist bandwidth
  { shift := ⟨F32.add acc.shift.x (F32.mul o.x weight),
              F32.add acc.shift.y (F32.mul o.y weight)⟩
    scale := F32.add acc.scale weight }

/-- The inner loop `for (int j = 0; j < num_points; j++)` of `verify_mean_shift` in
binary32, started from `shift = { 0, 0 }`, `scale = 0`. -/
noncomputable def inner_loop_f32 (p : Point32) (original_points : List Point32)
    (num_points : ℕ) (bandwidth : F32) : Accum32 :=
  (List.range num_points).foldl
    (fun acc j => accumulate_f32 p bandwidth acc (original_points.getD j default))
    ⟨⟨F32.fin 0, F32.fin 0⟩, F32.fin 0⟩

/-- The local `expected` of `verify_mean_shift` at index `i` in binary32:
`{ shift.x / scale, shift.y / scale }` after the inner loop for `points[i]`. -/
noncomputable def expected_f32 (points original_points : List Point32) (num_points : ℕ)
    (bandwidth : F32) (i : ℕ) : Point32 :=
  let acc := inner_loop_f32 (points.getD i default) original_points num_points bandwidth
  ⟨F32.div acc.shift.x acc.scale, F32.div acc.shift.y acc.scale⟩

/-- The outer loop of `verify_mean_shift` in binary32 over the remaining indices,
with the test `fabs(shifted_points[i].x - expected.x) > 0.01 ||
fabs(shifted_points[i].y - expected.y) > 0.01` as the machine evaluates it. -/
noncomputable def verify_from_f32 (points original_points : List Point32) (num_points : ℕ)
    (bandwidth : F32) (shifted_points : List Point32) : List ℕ → VerifyResult
  | [] => ⟨1, none⟩
  | i :: rest =>
    if (fabs (F32.sub (shifted_points.getD i default).x
          (expected_f32 points original_points num_points bandwidth i).x)).gt_const
          double_0_01 = true ∨
       (fabs (F32.sub (shifted_points.getD i default).y
          (expected_f32 points original_points num_points bandwidth i).y)).gt_const
          double_0_01 = true then
      ⟨0, some i⟩
    else
      verify_from_f32 points original_points num_points bandwidth shifted_points rest

/-- Source `verify_mean_shift` in binary32. -/
noncomputable def verify_mean_shift_f32 (points original_points : List Point32)
    (num_points : ℕ) (bandwidth : F32) (shifted_points : List Point32) : VerifyResult :=
  verify_from_f32 points original_points num_points bandwidth shifted_points
    (List.range num_points)

/-! ## The iteration loop of `main` -/

/-- The body of a work item of `mean_shift_point_kernel`: from the two input
buffers, `num_points`, the bandwidth and its global id, the element it stores. -/
abbrev Kernel := List Point → List Point → ℕ → ℝ → ℕ → Point

/-- Modelled from the spec: the OpenCL kernel `mean_shift_point_kernel` (file
`mean_shift_point.cl`) is not among the sources. One invocation over the range
`{ NUM_VALUES, 0, 0 }` of line 87 runs one work item per global id below
`NUM_VALUES`, and work item `gid` stores element `gid` of the output buffer
(4.2: "execute ShiftKernel over all N points of the current set ... and produce
a new output set"). The result is the new content of `device_shifted_points`. -/
def run_kernel (kernel : Kernel) (points original_points : List Point) (num_points : ℕ)
    (bandwidth : ℝ) : List Point :=
  (List.range num_points).map (kernel points original_points num_points bandwidth)

/-- Modelled from the spec: the work item of `mean_shift_point_kernel` when it
computes the formula of 4.1, which is the formula `verify_mean_shift`
recomputes as `expected`. -/
noncomputable def reference_kernel : Kernel :=
  fun points original_points num_points bandwidth gid =>
    expected points original_points num_points bandwidth gid

/-- The constants of `main` (lines 40-43) and the work-group size the device
reports; in the source `NUM_VALUES = 128 * 160`, `MAX_ITERATIONS = 100`,
`BANDWIDTH = 3`. -/
structure Config where
  NUM_VALUES : ℕ
  MAX_ITERATIONS : Int
  BANDWIDTH : ℝ
  work_group_size : ℕ

/-- The variables of `main` the loop reads or writes. `dispatches` is a ghost
counter of the invocations of `mean_shift_point_kernel`. -/
structure LoopState where
  points : List Point
  original_points : List Point
  shifted_points : List Point
  device_points : List Point
  device_original_points : List Point
  device_shifted_points : List Point
  num_work_groups : ℕ
  iteration : Int
  dispatches : ℕ

/-- Lines 51-54: `points[i].x = (cl_float)i; points[i].y = (cl_float)i;`. -/
def initial_points (NUM_VALUES : ℕ) : List Point :=
  (List.range NUM_VALUES).map (fun (i : ℕ) => ⟨(i : ℝ), (i : ℝ)⟩)

/-- Lines 47-69 for an arbitrary initial content `P0` of `points`:
`original_points` is a `memcpy` of `points`, the two input device buffers are
copies of their host buffers, and `shifted_points`, `device_shifted_points` hold
whatever their allocation left there (`junk_host`, `junk_device`). -/
def init_state (P0 junk_host junk_device : List Point) : LoopState :=
  { points := P0
    original_points := P0
    shifted_points := junk_host
    device_points := P0
    device_original_points := P0
    device_shifted_points := junk_device
    num_work_groups := 0
    iteration := 0
    dispatches := 0 }

/-- The block passed to `dispatch_sync` (lines 78-99): set `num_work_groups`, run
the kernel on the device buffers, copy `device_shifted_points` to
`shifted_points`. -/
def dispatch_block (cfg : Config) (kernel : Kernel) (s : LoopState) : LoopState :=
  let out := run_kernel kernel s.device_points s.device_original_points
    cfg.NUM_VALUES cfg.BANDWIDTH
  { s with
    num_work_groups := cfg.NUM_VALUES / cfg.work_group_size
    device_shifted_points := out
    shifted_points := out
    dispatches := s.dispatches + 1 }

/-- Lines 102-106: `memcpy(points, shifted_points, BUFFER_SIZE)`, then
`device_points` is freed and allocated again as a copy of `points`. -/
def feed_back (s : LoopState) : LoopState :=
  { s with
    points := s.shifted_points
    device_points := s.shifted_points }

/-- One pass through the body of `for (;;)` up to and including `++iteration`. -/
def dispatch_and_count (cfg : Config) (kernel : Kernel) (s : LoopState) : LoopState :=
  let s1 := dispatch_block cfg kernel s
  { s1 with iteration := s1.iteration + 1 }

/-- One pass through the body of `for (;;)` (lines 71-111): the new state, and
`true` when the loop goes round again, `false` when it hits `break`. -/
def loop_body (cfg : Config) (kernel : Kernel) (s : LoopState) : LoopState × Bool :=
  let s2 := dispatch_and_count cfg kernel s
  if s2.iteration < cfg.MAX_ITERATIONS then (feed_back s2, true) else (s2, false)

/-- The loop `for (;;)` of `main` from state `s`, up to its `break`. -/
def main_loop (cfg : Config) (kernel : Kernel) (s : LoopState) : LoopState :=
  if (loop_body cfg kernel s).2 = true then
    main_loop cfg kernel (loop_body cfg kernel s).1
  else
    (loop_body cfg kernel s).1
termination_by (cfg.MAX_ITERATIONS - s.iteration).toNat
decreasing_by
  simp only [loop_body, dispatch_and_count, dispatch_block, feed_back] at *
  split at * <;> simp_all
  omega

/-! ## Definitions the properties are stated with -/

/-- The weight the inner loop gives the original point `o` for the target `p`. -/
noncomputable def weight_of (p : Point) (h : ℝ) (o : Point) : ℝ :=
  gaussian_kernel (euclidian_distance p o) h

/-- The least element of a list of reals (`0` for the empty list). -/
noncomputable def list_min : List ℝ → ℝ
  | [] => 0
  | a :: l => l.foldl min a

/-- The greatest element of a list of reals (`0` for the empty list). -/
noncomputable def list_max : List ℝ → ℝ
  | [] => 0
  | a :: l => l.foldl max a

/-- Both coordinates of `shifted_points[i]` are within `0.01` of the brute-force
shift `expected` of `points[i]`. -/
def within_tolerance (points original_points : List Point) (num_points : ℕ)
    (bandwidth : ℝ) (shifted_points : List Point) (i : ℕ) : Prop :=
  |(shifted_points.getD i default).x
      - (expected points original_points num_points bandwidth i).x| ≤ 0.01 ∧
  |(shifted_points.getD i default).y
      - (expected points original_points num_points bandwidth i).y| ≤ 0.01

/-- Both coordinates of `shifted_points[i]` are within `0.01` of the binary32
`expected` of `points[i]` (which fails when `expected` is NaN). -/
def within_tolerance_f32 (points original_points : List Point32) (num_points : ℕ)
    (bandwidth : F32) (shifted_points : List Point32) (i : ℕ) : Prop :=
  (fabs (F32.sub (shifted_points.getD i default).x
      (expected_f32 points original_points num_points bandwidth i).x)).le_const 0.01 ∧
  (fabs (F32.sub (shifted_points.getD i default).y
      (expected_f32 points original_points num_points bandwidth i).y)).le_const 0.01

/-- The four points of scenario A: `(0,0)`, `(1,1)`, `(2,2)`, `(3,3)`. -/
def scenario_A : List Point := [⟨0, 0⟩, ⟨1, 1⟩, ⟨2, 2⟩, ⟨3, 3⟩]

/-- The two points `(0,0)`, `(1,1)`. -/
def two_points : List Point := [⟨0, 0⟩, ⟨1, 1⟩]

/-- The constants of lines 40-43, on a device reporting a work-group size of `256`. -/
def source_config : Config := ⟨128 * 160, 100, 3, 256⟩

/-- One dispatch as a function of the current set, the original set being fixed. -/
def one_dispatch (cfg : Config) (kernel : Kernel) (original : List Point)
    (current : List Point) : List Point :=
  run_kernel kernel current original cfg.NUM_VALUES cfg.BANDWIDTH

/-- The invariant of the loop: `original_points` is the clone `P0` of the
initial points and the three host buffers have `NUM_VALUES` elements. -/
def LoopInv (cfg : Config) (P0 : List Point) (s : LoopState) : Prop :=
  s.original_points = P0 ∧ s.points.length = cfg.NUM_VALUES ∧
    s.original_points.length = cfg.NUM_VALUES ∧ s.shifted_points.length = cfg.NUM_VALUES

/-! ## The Gaussian weight -/

theorem gaussian_norm_pos {h : ℝ} (hh : 0 < h) : 0 < 1 / (h * Real.sqrt (2 * Real.pi)) := by
  have hpi : 0 < Real.sqrt (2 * Real.pi) := Real.sqrt_pos.mpr (by positivity)
  positivity

theorem gaussian_kernel_pos (d : ℝ) {h : ℝ} (hh : 0 < h) : 0 < gaussian_kernel d h := by
  unfold gaussian_kernel
  exact mul_pos (gaussian_norm_pos hh) (Real.exp_pos _)

theorem gaussian_kernel_zero (h : ℝ) :
    gaussian_kernel 0 h = 1 / (h * Real.sqrt (2 * Real.pi)) := by
  unfold gaussian_kernel
  simp

theorem gaussian_kernel_le (d : ℝ) {h : ℝ} (hh : 0 < h) :
    gaussian_kernel d h ≤ 1 / (h * Real.sqrt (2 * Real.pi)) := by
  unfold gaussian_kernel
  have hexp : Real.exp (-0.5 * (d / h) ^ 2) ≤ 1 := by
    rw [Real.exp_le_one_iff]
    have : 0 ≤ (d / h) ^ 2 := sq_nonneg _
    linarith
  calc 1 / (h * Real.sqrt (2 * Real.pi)) * Real.exp (-0.5 * (d / h) ^ 2)
      ≤ 1 / (h * Real.sqrt (2 * Real.pi)) * 1 :=
        mul_le_mul_of_nonneg_left hexp (gaussian_norm_pos hh).le
    _ = 1 / (h * Real.sqrt (2 * Real.pi)) := mul_one _

theorem gaussian_kernel_lt {d h : ℝ} (hh : 0 < h) (hd : d ≠ 0) :
    gaussian_kernel d h < gaussian_kernel 0 h := by
  rw [gaussian_kernel_zero]
  unfold gaussian_kernel
  have hq : 0 < (d / h) ^ 2 := by
    have : d / h ≠ 0 := div_ne_zero hd hh.ne'
    positivity
  have hexp : Real.exp (-0.5 * (d / h) ^ 2) < 1 := by
    rw [Real.exp_lt_one_iff]
    linarith
  calc 1 / (h * Real.sqrt (2 * Real.pi)) * Real.exp (-0.5 * (d / h) ^ 2)
      < 1 / (h * Real.sqrt (2 * Real.pi)) * 1 :=
        mul_lt_mul_of_pos_left hexp (gaussian_norm_pos hh)
    _ = 1 / (h * Real.sqrt (2 * Real.pi)) := mul_one _

/-! ## The inner loop as sums over the original set -/

theorem weight_of_pos (p o : Point) {h : ℝ} (hh : 0 < h) : 0 < weight_of p h o :=
  gaussian_kernel_pos _ hh

theorem map_getD_range (O : List Point) (n : ℕ) (hn : O.length = n) :
    (List.range n).map (fun j => O.getD j default) = O := by
  apply List.ext_getElem
  · simp [hn]
  · intro i h1 h2
    simp [List.getElem?_eq_getElem h2]

theorem inner_loop_eq_foldl (p : Point) (O : List Point) (n : ℕ) (h : ℝ)
    (hn : O.length = n) :
    inner_loop p O n h = O.foldl (accumulate p h) ⟨⟨0, 0⟩, 0⟩ := by
  unfold inner_loop
  conv_rhs => rw [← map_getD_range O n hn]
  rw [List.foldl_map]

theorem foldl_accumulate (p : Point) (h : ℝ) (O : List Point) (acc : Accum) :
    (O.foldl (accumulate p h) acc).scale = acc.scale + (O.map (weight_of p h)).sum ∧
    (O.foldl (accumulate p h) acc).shift.x
      = acc.shift.x + (O.map (fun o => o.x * weight_of p h o)).sum ∧
    (O.foldl (accumulate p h) acc).shift.y
      = acc.shift.y + (O.map (fun o => o.y * weight_of p h o)).sum := by
  induction O generalizing acc with
  | nil => simp
  | cons o O ih =>
    obtain ⟨h1, h2, h3⟩ := ih (accumulate p h acc o)
    simp only [List.foldl_cons, List.map_cons, List.sum_cons]
    rw [h1, h2, h3]
    simp only [accumulate, weight_of]
    refine ⟨by ring, by ring, by ring⟩

theorem inner_loop_scale (p : Point) (O : List Point) (n : ℕ) (h : ℝ) (hn : O.length = n) :
    (inner_loop p O n h).scale = (O.map (weight_of p h)).sum := by
  rw [inner_loop_eq_foldl p O n h hn, (foldl_accumulate p h O _).1]; simp

theorem inner_loop_shift_x (p : Point) (O : List Point) (n : ℕ) (h : ℝ) (hn : O.length = n) :
    (inner_loop p O n h).shift.x = (O.map (fun o => o.x * weight_of p h o)).sum := by
  rw [inner_loop_eq_foldl p O n h hn, (foldl_accumulate p h O _).2.1]; simp

theorem inner_loop_shift_y (p : Point) (O : List Point) (n : ℕ) (h : ℝ) (hn : O.length = n) :
    (inner_loop p O n h).shift.y = (O.map (fun o => o.y * weight_of p h o)).sum := by
  rw [inner_loop_eq_foldl p O n h hn, (foldl_accumulate p h O _).2.2]; simp

theorem inner_loop_scale_pos (p : Point) (O : List Point) (n : ℕ) {h : ℝ} (hh : 0 < h)
    (hn : O.length = n) (hpos : 1 ≤ n) : 0 < (inner_loop p O n h).scale := by
  rw [inner_loop_scale p O n h hn]
  apply List.sum_pos
  · intro w hw
    obtain ⟨o, -, rfl⟩ := List.mem_map.mp hw
    exact weight_of_pos p o hh
  · intro hnil
    have : O = [] := by simpa using hnil
    subst this
    simp at hn
    omega

/-! ## The shift is a weighted mean -/

theorem sum_weighted_ge (p : Point) {h : ℝ} (hh : 0 < h) (O : List Point) (f : Point → ℝ)
    (lo : ℝ) (hlo : ∀ o ∈ O, lo ≤ f o) :
    lo * (O.map (weight_of p h)).sum ≤ (O.map (fun o => f o * weight_of p h o)).sum := by
  rw [← List.sum_map_mul_left]
  apply List.sum_le_sum
  intro o ho
  exact mul_le_mul_of_nonneg_right (hlo o ho) (weight_of_pos p o hh).le

theorem sum_weighted_le (p : Point) {h : ℝ} (hh : 0 < h) (O : List Point) (f : Point → ℝ)
    (hi : ℝ) (hhi : ∀ o ∈ O, f o ≤ hi) :
    (O.map (fun o => f o * weight_of p h o)).sum ≤ hi * (O.map (weight_of p h)).sum := by
  rw [← List.sum_map_mul_left]
  apply List.sum_le_sum
  intro o ho
  exact mul_le_mul_of_nonneg_right (hhi o ho) (weight_of_pos p o hh).le

theorem shift_point_x_ge (p : Point) (O : List Point) (n : ℕ) {h : ℝ} (hh : 0 < h)
    (hn : O.length = n) (hpos : 1 ≤ n) (lo : ℝ) (hlo : ∀ o ∈ O, lo ≤ o.x) :
    lo ≤ (shift_point p O n h).x := by
  have hs := inner_loop_scale_pos p O n hh hn hpos
  show lo ≤ (inner_loop p O n h).shift.x / (inner_loop p O n h).scale
  rw [le_div_iff₀ hs, inner_loop_scale p O n h hn, inner_loop_shift_x p O n h hn]
  exact sum_weighted_ge p hh O Point.x lo hlo

theorem shift_point_x_le (p : Point) (O : List Point) (n : ℕ) {h : ℝ} (hh : 0 < h)
    (hn : O.length = n) (hpos : 1 ≤ n) (hi : ℝ) (hhi : ∀ o ∈ O, o.x ≤ hi) :
    (shift_point p O n h).x ≤ hi := by
  have hs := inner_loop_scale_pos p O n hh hn hpos
  show (inner_loop p O n h).shift.x / (inner_loop p O n h).scale ≤ hi
  rw [div_le_iff₀ hs, inner_loop_scale p O n h hn, inner_loop_shift_x p O n h hn]
  exact sum_weighted_le p hh O Point.x hi hhi

theorem shift_point_y_ge (p : Point) (O : List Point) (n : ℕ) {h : ℝ} (hh : 0 < h)
    (hn : O.length = n) (hpos : 1 ≤ n) (lo : ℝ) (hlo : ∀ o ∈ O, lo ≤ o.y) :
    lo ≤ (shift_point p O n h).y := by
  have hs := inner_loop_scale_pos p O n hh hn hpos
  show lo ≤ (inner_loop p O n h).shift.y / (inner_loop p O n h).scale
  rw [le_div_iff₀ hs, inner_loop_scale p O n h hn, inner_loop_shift_y p O n h hn]
  exact sum_weighted_ge p hh O Point.y lo hlo

theorem shift_point_y_le (p : Point) (O : List Point) (n : ℕ) {h : ℝ} (hh : 0 < h)
    (hn : O.length = n) (hpos : 1 ≤ n) (hi : ℝ) (hhi : ∀ o ∈ O, o.y ≤ hi) :
    (shift_point p O n h).y ≤ hi := by
  have hs := inner_loop_scale_pos p O n hh hn hpos
  show (inner_loop p O n h).shift.y / (inner_loop p O n h).scale ≤ hi
  rw [div_le_iff₀ hs, inner_loop_scale p O n h hn, inner_loop_shift_y p O n h hn]
  exact sum_weighted_le p hh O Point.y hi hhi

/-- A set of copies of `c` is shifted to `c`, whatever the target point. -/
theorem shift_point_constant (p c : Point) (O : List Point) (n : ℕ) {h : ℝ} (hh : 0 < h)
    (hn : O.length = n) (hpos : 1 ≤ n) (hO : ∀ o ∈ O, o = c) :
    shift_point p O n h = c := by
  apply Point.ext
  · apply le_antisymm
    · exact shift_point_x_le p O n hh hn hpos c.x (fun o ho => by rw [hO o ho])
    · exact shift_point_x_ge p O n hh hn hpos c.x (fun o ho => by rw [hO o ho])
  · apply le_antisymm
    · exact shift_point_y_le p O n hh hn hpos c.y (fun o ho => by rw [hO o ho])
    · exact shift_point_y_ge p O n hh hn hpos c.y (fun o ho => by rw [hO o ho])

theorem sum_weighted_gt (p : Point) {h : ℝ} (hh : 0 < h) (O : List Point) (f : Point → ℝ)
    (lo : ℝ) (hlo : ∀ o ∈ O, lo ≤ f o) (hex : ∃ o ∈ O, lo < f o) :
    lo * (O.map (weight_of p h)).sum < (O.map (fun o => f o * weight_of p h o)).sum := by
  rw [← List.sum_map_mul_left]
  apply List.sum_lt_sum
  · intro o ho
    exact mul_le_mul_of_nonneg_right (hlo o ho) (weight_of_pos p o hh).le
  · obtain ⟨o, ho, hlt⟩ := hex
    exact ⟨o, ho, mul_lt_mul_of_pos_right hlt (weight_of_pos p o hh)⟩

theorem sum_weighted_lt (p : Point) {h : ℝ} (hh : 0 < h) (O : List Point) (f : Point → ℝ)
    (hi : ℝ) (hhi : ∀ o ∈ O, f o ≤ hi) (hex : ∃ o ∈ O, f o < hi) :
    (O.map (fun o => f o * weight_of p h o)).sum < hi * (O.map (weight_of p h)).sum := by
  rw [← List.sum_map_mul_left]
  apply List.sum_lt_sum
  · intro o ho
    exact mul_le_mul_of_nonneg_right (hhi o ho) (weight_of_pos p o hh).le
  · obtain ⟨o, ho, hlt⟩ := hex
    exact ⟨o, ho, mul_lt_mul_of_pos_right hlt (weight_of_pos p o hh)⟩

theorem shift_point_x_gt (p : Point) (O : List Point) (n : ℕ) {h : ℝ} (hh : 0 < h)
    (hn : O.length = n) (hpos : 1 ≤ n) (lo : ℝ) (hlo : ∀ o ∈ O, lo ≤ o.x)
    (hex : ∃ o ∈ O, lo < o.x) : lo < (shift_point p O n h).x := by
  have hs := inner_loop_scale_pos p O n hh hn hpos
  show lo < (inner_loop p O n h).shift.x / (inner_loop p O n h).scale
  rw [lt_div_iff₀ hs, inner_loop_scale p O n h hn, inner_loop_shift_x p O n h hn]
  exact sum_weighted_gt p hh O Point.x lo hlo hex

theorem shift_point_x_lt (p : Point) (O : List Point) (n : ℕ) {h : ℝ} (hh : 0 < h)
    (hn : O.length = n) (hpos : 1 ≤ n) (hi : ℝ) (hhi : ∀ o ∈ O, o.x ≤ hi)
    (hex : ∃ o ∈ O, o.x < hi) : (shift_point p O n h).x < hi := by
  have hs := inner_loop_scale_pos p O n hh hn hpos
  show (inner_loop p O n h).shift.x / (inner_loop p O n h).scale < hi
  rw [div_lt_iff₀ hs, inner_loop_scale p O n h hn, inner_loop_shift_x p O n h hn]
  exact sum_weighted_lt p hh O Point.x hi hhi hex

/-! ## Distances -/

theorem euclidian_distance_self (p : Point) : euclidian_distance p p = 0 := by
  simp [euclidian_distance]

theorem euclidian_distance_ne_zero (p q : Point) (hx : p.x ≠ q.x) :
    euclidian_distance p q ≠ 0 := by
  unfold euclidian_distance
  have h1 : 0 < (p.x - q.x) ^ 2 := by
    have : p.x - q.x ≠ 0 := sub_ne_zero.mpr hx
    positivity
  have h2 : 0 ≤ (p.y - q.y) ^ 2 := sq_nonneg _
  exact (Real.sqrt_pos.mpr (by linarith)).ne'

theorem euclidian_distance_lt (q r c : Point)
    (hx : (q.x - c.x) ^ 2 < (r.x - c.x) ^ 2) (hy : (q.y - c.y) ^ 2 < (r.y - c.y) ^ 2) :
    euclidian_distance q c < euclidian_distance r c := by
  unfold euclidian_distance
  exact Real.sqrt_lt_sqrt (by positivity) (by linarith)

/-! ## Least and greatest coordinate -/

theorem foldl_min_le (l : List ℝ) (a : ℝ) :
    l.foldl min a ≤ a ∧ ∀ x ∈ l, l.foldl min a ≤ x := by
  induction l generalizing a with
  | nil => simp
  | cons b l ih =>
    obtain ⟨h1, h2⟩ := ih (min a b)
    refine ⟨h1.trans (min_le_left a b), ?_⟩
    intro x hx
    rcases List.mem_cons.mp hx with rfl | hx
    · exact h1.trans (min_le_right a x)
    · exact h2 x hx

theorem le_foldl_max (l : List ℝ) (a : ℝ) :
    a ≤ l.foldl max a ∧ ∀ x ∈ l, x ≤ l.foldl max a := by
  induction l generalizing a with
  | nil => simp
  | cons b l ih =>
    obtain ⟨h1, h2⟩ := ih (max a b)
    refine ⟨(le_max_left a b).trans h1, ?_⟩
    intro x hx
    rcases List.mem_cons.mp hx with rfl | hx
    · exact (le_max_right a x).trans h1
    · exact h2 x hx

theorem list_min_le (l : List ℝ) (x : ℝ) (hx : x ∈ l) : list_min l ≤ x := by
  cases l with
  | nil => simp at hx
  | cons a l =>
    rcases List.mem_cons.mp hx with rfl | hx
    · exact (foldl_min_le l x).1
    · exact (foldl_min_le l a).2 x hx

theorem le_list_max (l : List ℝ) (x : ℝ) (hx : x ∈ l) : x ≤ list_max l := by
  cases l with
  | nil => simp at hx
  | cons a l =>
    rcases List.mem_cons.mp hx with rfl | hx
    · exact (le_foldl_max l x).1
    · exact (le_foldl_max l a).2 x hx

theorem list_min_mem (l : List ℝ) (hl : l ≠ []) : list_min l ∈ l := by
  cases l with
  | nil => exact absurd rfl hl
  | cons a l =>
    have key : ∀ (l : List ℝ) (a : ℝ), l.foldl min a = a ∨ l.foldl min a ∈ l := by
      intro l
      induction l with
      | nil => intro a; simp
      | cons b l ih =>
        intro a
        rcases ih (min a b) with h | h
        · rcases min_choice a b with h2 | h2
          · left; simp only [List.foldl_cons]; rw [h, h2]
          · right; simp only [List.foldl_cons]; rw [h, h2]; exact List.mem_cons_self _ _
        · right; exact List.mem_cons_of_mem _ h
    rcases key l a with h | h
    · show l.foldl min a ∈ a :: l
      rw [h]; exact List.mem_cons_self _ _
    · exact List.mem_cons_of_mem _ h

theorem list_max_mem (l : List ℝ) (hl : l ≠ []) : list_max l ∈ l := by
  cases l with
  | nil => exact absurd rfl hl
  | cons a l =>
    have key : ∀ (l : List ℝ) (a : ℝ), l.foldl max a = a ∨ l.foldl max a ∈ l := by
      intro l
      induction l with
      | nil => intro a; simp
      | cons b l ih =>
        intro a
        rcases ih (max a b) with h | h
        · rcases max_choice a b with h2 | h2
          · left; simp only [List.foldl_cons]; rw [h, h2]
          · right; simp only [List.foldl_cons]; rw [h, h2]; exact List.mem_cons_self _ _
        · right; exact List.mem_cons_of_mem _ h
    rcases key l a with h | h
    · show l.foldl max a ∈ a :: l
      rw [h]; exact List.mem_cons_self _ _
    · exact List.mem_cons_of_mem _ h

/-! ## Binary32 rounding, and the weight of a far point -/

theorem round_half_even_err (m : ℝ) : |(round_half_even m : ℝ) - m| ≤ 1 / 2 := by
  have h1 := Int.floor_le m
  have h2 := Int.lt_floor_add_one m
  unfold round_half_even
  split_ifs <;> push_cast <;> rw [abs_le] <;> constructor <;> linarith

theorem nearest32_err (x : ℝ) : |nearest32 x - x| ≤ 2 ^ ulp_exponent x / 2 := by
  have hu : (0 : ℝ) < 2 ^ ulp_exponent x := by positivity
  have hxm : x / 2 ^ ulp_exponent x * 2 ^ ulp_exponent x = x := div_mul_cancel₀ x hu.ne'
  have key : nearest32 x - x
      = ((round_half_even (x / 2 ^ ulp_exponent x) : ℝ) - x / 2 ^ ulp_exponent x)
        * 2 ^ ulp_exponent x := by
    rw [sub_mul, hxm]
    rfl
  rw [key, abs_mul, abs_of_pos hu]
  calc |(round_half_even (x / 2 ^ ulp_exponent x) : ℝ) - x / 2 ^ ulp_exponent x|
        * 2 ^ ulp_exponent x
      ≤ 1 / 2 * 2 ^ ulp_exponent x :=
        mul_le_mul_of_nonneg_right (round_half_even_err _) hu.le
    _ = 2 ^ ulp_exponent x / 2 := by ring

theorem ulp_le_of_normal {x : ℝ} (hx : (2 : ℝ) ^ (-126 : ℤ) ≤ |x|) :
    (2 : ℝ) ^ ulp_exponent x ≤ |x| / 2 ^ 23 := by
  have hpos : 0 < |x| := lt_of_lt_of_le (by positivity) hx
  have hlog : (-126 : ℤ) ≤ Int.log 2 |x| := by
    apply (Int.zpow_le_iff_le_log (by norm_num) hpos).mp
    simpa using hx
  have hle : ((2 : ℕ) : ℝ) ^ Int.log 2 |x| ≤ |x| := Int.zpow_log_le_self (by norm_num) hpos
  have hue : ulp_exponent x = Int.log 2 |x| - 23 := by
    unfold ulp_exponent
    rw [max_eq_left hlog]
  rw [hue, zpow_sub₀ (by norm_num : (2 : ℝ) ≠ 0)]
  have h23 : ((2 : ℝ) ^ (23 : ℤ)) = 2 ^ 23 := by norm_num
  rw [h23]
  apply div_le_div_of_nonneg_right _ (by positivity)
  simpa using hle

theorem round32_normal {x : ℝ} (h1 : (2 : ℝ) ^ (-126 : ℤ) ≤ |x|) (h2 : |x| ≤ 2 ^ 127) :
    round32 x = F32.fin (nearest32 x) ∧ |nearest32 x - x| ≤ |x| / 2 ^ 24 := by
  have herr : |nearest32 x - x| ≤ |x| / 2 ^ 24 := by
    have := nearest32_err x
    have hu := ulp_le_of_normal h1
    calc |nearest32 x - x| ≤ 2 ^ ulp_exponent x / 2 := this
      _ ≤ |x| / 2 ^ 23 / 2 := by linarith
      _ = |x| / 2 ^ 24 := by ring
  refine ⟨?_, herr⟩
  unfold round32
  rw [if_neg]
  rw [not_le]
  have habs : |nearest32 x| ≤ |nearest32 x - x| + |x| := by
    have := abs_add (nearest32 x - x) x
    simpa using this
  have hx0 : 0 ≤ |x| := abs_nonneg x
  have : |x| / 2 ^ 24 ≤ |x| := div_le_self hx0 (by norm_num)
  have h128 : (2 : ℝ) ^ 128 = 2 * 2 ^ 127 := by norm_num
  have hpos : (0:ℝ) < 2 ^ 127 := by positivity
  have hlt : |x| / 2 ^ 24 < 2 ^ 127 := by
    have : |x| / 2 ^ 24 ≤ 2 ^ 127 / 2 ^ 24 := div_le_div_of_nonneg_right h2 (by positivity)
    have h3 : (2:ℝ) ^ 127 / 2 ^ 24 < 2 ^ 127 := div_lt_self hpos (by norm_num)
    linarith
  rw [h128]
  linarith

theorem round32_tiny {x : ℝ} (hx : |x| < (2 : ℝ) ^ (-150 : ℤ)) : round32 x = F32.fin 0 := by
  have hn : nearest32 x = 0 := by
    by_cases h0 : x = 0
    · subst h0
      simp [nearest32, round_half_even]
    · have hpos : 0 < |x| := abs_pos.mpr h0
      have h126 : |x| < ((2 : ℕ) : ℝ) ^ (-126 : ℤ) := by
        have : (2 : ℝ) ^ (-150 : ℤ) ≤ 2 ^ (-126 : ℤ) :=
          zpow_le_zpow_right₀ (by norm_num) (by norm_num)
        push_cast
        linarith
      have hlog : Int.log 2 |x| < -126 := (Int.lt_zpow_iff_log_lt (by norm_num) hpos).mp h126
      have hue : ulp_exponent x = -149 := by
        unfold ulp_exponent
        rw [max_eq_right hlog.le]
        norm_num
      unfold nearest32
      rw [hue]
      have hm : |x / 2 ^ (-149 : ℤ)| < 1 / 2 := by
        rw [abs_div, abs_of_pos (by positivity : (0:ℝ) < 2 ^ (-149 : ℤ)),
          div_lt_iff₀ (by positivity)]
        have : (1 / 2 : ℝ) * 2 ^ (-149 : ℤ) = 2 ^ (-150 : ℤ) := by
          rw [show (-149 : ℤ) = -150 + 1 by norm_num, zpow_add₀ (by norm_num : (2:ℝ) ≠ 0)]
          norm_num
        rw [this]
        exact hx
      have hr : round_half_even (x / 2 ^ (-149 : ℤ)) = 0 := by
        rw [abs_lt] at hm
        unfold round_half_even
        by_cases hneg : x / 2 ^ (-149 : ℤ) < 0
        · have hf : ⌊x / 2 ^ (-149 : ℤ)⌋ = -1 := by
            rw [Int.floor_eq_iff]
            constructor <;> push_cast <;> linarith [hm.1]
          rw [hf]
          push_cast
          rw [if_neg (by linarith [hm.1]), if_pos (by linarith [hm.1])]
        · have hf : ⌊x / 2 ^ (-149 : ℤ)⌋ = 0 := by
            rw [Int.floor_eq_iff]
            constructor <;> push_cast <;> linarith [hm.2]
          rw [hf]
          push_cast
          rw [if_pos (by linarith [hm.2])]
      rw [hr]
      simp
  unfold round32
  rw [hn]
  simp

theorem round32_zero : round32 0 = F32.fin 0 :=
  round32_tiny (by rw [abs_zero]; positivity)

theorem two_pow_neg_126_le : (2 : ℝ) ^ (-126 : ℤ) ≤ 1 / 8 := by
  have h : (1 / 8 : ℝ) = 2 ^ (-3 : ℤ) := by norm_num
  rw [h]
  exact zpow_le_zpow_right₀ (by norm_num) (by norm_num)

theorem ten_pow_nine_le : (10 : ℝ) ^ 9 ≤ 2 ^ 127 := by norm_num

theorem round32_pos {x : ℝ} (h1 : 1 / 8 ≤ x) (h2 : x ≤ 10 ^ 9) :
    ∃ y, round32 x = F32.fin y ∧ 0.99 * x ≤ y ∧ y ≤ 1.01 * x := by
  have hx : 0 < x := by linarith
  have habs : |x| = x := abs_of_pos hx
  obtain ⟨hr, herr⟩ := round32_normal (x := x)
    (by rw [habs]; exact two_pow_neg_126_le.trans h1)
    (by rw [habs]; exact h2.trans ten_pow_nine_le)
  refine ⟨nearest32 x, hr, ?_, ?_⟩
  · rw [habs, abs_le] at herr
    have : x / 2 ^ 24 ≤ 0.01 * x := by
      rw [div_le_iff₀ (by positivity)]
      nlinarith
    linarith [herr.1]
  · rw [habs, abs_le] at herr
    have : x / 2 ^ 24 ≤ 0.01 * x := by
      rw [div_le_iff₀ (by positivity)]
      nlinarith
    linarith [herr.2]

theorem round32_neg {x : ℝ} (h1 : x ≤ -(1 / 8)) (h2 : -(10 ^ 9) ≤ x) :
    ∃ y, round32 x = F32.fin y ∧ 1.01 * x ≤ y ∧ y ≤ 0.99 * x := by
  have hx : x < 0 := by linarith
  have habs : |x| = -x := abs_of_neg hx
  obtain ⟨hr, herr⟩ := round32_normal (x := x)
    (by rw [habs]; exact two_pow_neg_126_le.trans (by linarith))
    (by rw [habs]; exact le_trans (by linarith) ten_pow_nine_le)
  refine ⟨nearest32 x, hr, ?_, ?_⟩
  · rw [habs, abs_le] at herr
    have : -x / 2 ^ 24 ≤ 0.01 * -x := by
      rw [div_le_iff₀ (by positivity)]
      nlinarith
    linarith [herr.1]
  · rw [habs, abs_le] at herr
    have : -x / 2 ^ 24 ≤ 0.01 * -x := by
      rw [div_le_iff₀ (by positivity)]
      nlinarith
    linarith [herr.2]

theorem exp_underflows {a : ℝ} (ha : a ≤ -150) : round32 (Real.exp a) = F32.fin 0 := by
  apply round32_tiny
  rw [abs_of_pos (Real.exp_pos a)]
  have h1 : Real.exp a ≤ Real.exp (-150) := Real.exp_le_exp.mpr ha
  have h2 : Real.exp (-150) = (Real.exp (-1)) ^ 150 := by
    rw [← Real.exp_nat_mul]
    norm_num
  have h3 : Real.exp (-1) < 1 / 2 := by
    rw [Real.exp_neg, inv_eq_one_div, div_lt_div_iff₀ (Real.exp_pos 1) (by norm_num)]
    have := Real.add_one_lt_exp (by norm_num : (1 : ℝ) ≠ 0)
    linarith
  have h4 : (Real.exp (-1)) ^ 150 < (1 / 2) ^ 150 :=
    pow_lt_pow_left₀ h3 (Real.exp_pos _).le (by norm_num)
  have h5 : ((1 : ℝ) / 2) ^ 150 = 2 ^ (-150 : ℤ) := by
    rw [zpow_neg, one_div, inv_pow]
    norm_cast
  calc Real.exp a ≤ Real.exp (-150) := h1
    _ = (Real.exp (-1)) ^ 150 := h2
    _ < (1 / 2) ^ 150 := h4
    _ = 2 ^ (-150 : ℤ) := h5

theorem far_distance (a a' b b' : ℝ) (h1 : 50 ≤ a - b) (h2 : a - b ≤ 2000)
    (h1' : 50 ≤ a' - b') (h2' : a' - b' ≤ 2000) :
    ∃ d, euclidian_distance_f32 ⟨F32.fin a, F32.fin a'⟩ ⟨F32.fin b, F32.fin b'⟩ = F32.fin d ∧
      59 ≤ d ∧ d ≤ 3200 := by
  obtain ⟨y1, e1, l1, u1⟩ := round32_pos (x := a - b) (by linarith) (by linarith)
  obtain ⟨z1, f1, m1, v1⟩ := round32_pos (x := a' - b') (by linarith) (by linarith)
  have hy1 : 49 ≤ y1 ∧ y1 ≤ 2100 := ⟨by linarith, by linarith⟩
  have hz1 : 49 ≤ z1 ∧ z1 ≤ 2100 := ⟨by linarith, by linarith⟩
  have hy1s : 2401 ≤ y1 ^ 2 ∧ y1 ^ 2 ≤ 4410000 := ⟨by nlinarith, by nlinarith⟩
  have hz1s : 2401 ≤ z1 ^ 2 ∧ z1 ^ 2 ≤ 4410000 := ⟨by nlinarith, by nlinarith⟩
  obtain ⟨y2, e2, l2, u2⟩ := round32_pos (x := y1 ^ 2) (by linarith) (by linarith)
  obtain ⟨z2, f2, m2, v2⟩ := round32_pos (x := z1 ^ 2) (by linarith) (by linarith)
  have hsum : 4600 ≤ y2 + z2 ∧ y2 + z2 ≤ 9000000 := ⟨by linarith, by linarith⟩
  obtain ⟨y3, e3, l3, u3⟩ := round32_pos (x := y2 + z2) (by linarith) (by linarith)
  have hy3 : 4500 ≤ y3 ∧ y3 ≤ 9100000 := ⟨by linarith, by linarith⟩
  have hsq : 60 ≤ Real.sqrt y3 ∧ Real.sqrt y3 ≤ 3100 := by
    constructor
    · exact Real.le_sqrt_of_sq_le (by linarith)
    · rw [Real.sqrt_le_left (by norm_num)]
      linarith
  obtain ⟨y4, e4, l4, u4⟩ := round32_pos (x := Real.sqrt y3) (by linarith) (by linarith)
  refine ⟨y4, ?_, by linarith, by linarith⟩
  show sqrtf (F32.add (powf_two (round32 (a - b))) (powf_two (round32 (a' - b')))) = _
  rw [e1, f1]
  show sqrtf (F32.add (round32 (y1 ^ 2)) (round32 (z1 ^ 2))) = _
  rw [e2, f2]
  show sqrtf (round32 (y2 + z2)) = _
  rw [e3]
  show (if y3 < 0 then F32.nan else round32 (Real.sqrt y3)) = _
  rw [if_neg (by linarith), e4]

theorem norm_is_finite : ∃ c,
    F32.div (F32.fin 1) (F32.mul (F32.fin 1) (sqrtf (F32.mul (F32.fin 2) pi_f32)))
      = F32.fin c := by
  obtain ⟨y, e, l, u⟩ := round32_pos (x := 2 * (13176795 / 4194304))
    (by norm_num) (by norm_num)
  have hy : 6 ≤ y ∧ y ≤ 7 := ⟨by linarith, by linarith⟩
  have hsq : 2 ≤ Real.sqrt y ∧ Real.sqrt y ≤ 3 := by
    constructor
    · exact Real.le_sqrt_of_sq_le (by linarith)
    · rw [Real.sqrt_le_left (by norm_num)]
      linarith
  obtain ⟨s, es, ls, us⟩ := round32_pos (x := Real.sqrt y) (by linarith) (by linarith)
  have hs : 1 ≤ s ∧ s ≤ 4 := ⟨by linarith, by linarith⟩
  obtain ⟨t, et, lt, ut⟩ := round32_pos (x := 1 * s) (by linarith) (by linarith)
  have ht : (1 / 2 : ℝ) ≤ t ∧ t ≤ 5 := ⟨by linarith, by linarith⟩
  have hinv : 1 / 8 ≤ 1 / t ∧ 1 / t ≤ 10 ^ 9 := by
    constructor
    · rw [div_le_div_iff₀ (by norm_num) (by linarith)]
      linarith
    · rw [div_le_iff₀ (by linarith)]
      nlinarith
  obtain ⟨c, ec, -, -⟩ := round32_pos (x := 1 / t) hinv.1 hinv.2
  refine ⟨c, ?_⟩
  show F32.div (F32.fin 1) (F32.mul (F32.fin 1) (sqrtf (round32 (2 * (13176795 / 4194304)))))
    = _
  rw [e]
  show F32.div (F32.fin 1)
    (F32.mul (F32.fin 1) (if y < 0 then F32.nan else round32 (Real.sqrt y))) = _
  rw [if_neg (by linarith), es]
  show F32.div (F32.fin 1) (round32 (1 * s)) = _
  rw [et]
  show (if t = 0 then (if (1 : ℝ) = 0 then F32.nan else F32.inf (decide ((1 : ℝ) < 0)))
    else round32 (1 / t)) = _
  rw [if_neg (by linarith), ec]

theorem far_weight_zero (d : ℝ) (hd1 : 59 ≤ d) (hd2 : d ≤ 3200) :
    gaussian_kernel_f32 (F32.fin d) (F32.fin 1) = F32.fin 0 := by
  obtain ⟨c, hc⟩ := norm_is_finite
  obtain ⟨y5, e5, l5, u5⟩ := round32_pos (x := d / 1) (by linarith) (by norm_num; linarith)
  have hy5 : 58 ≤ y5 ∧ y5 ≤ 3300 := by
    rw [div_one] at l5 u5
    exact ⟨by linarith, by linarith⟩
  have hy5s : 3364 ≤ y5 ^ 2 ∧ y5 ^ 2 ≤ 10890000 := ⟨by nlinarith, by nlinarith⟩
  obtain ⟨y6, e6, l6, u6⟩ := round32_pos (x := y5 ^ 2) (by linarith) (by linarith)
  have hy6 : 3300 ≤ y6 ∧ y6 ≤ 11000000 := ⟨by linarith, by linarith⟩
  obtain ⟨y7, e7, l7, u7⟩ := round32_neg (x := -0.5 * y6) (by linarith) (by linarith)
  have hy7 : y7 ≤ -150 := by linarith
  unfold gaussian_kernel_f32
  rw [hc]
  show F32.mul (F32.fin c) (expf (F32.mul (F32.fin (-0.5))
    (powf_two (if (1 : ℝ) = 0 then (if d = 0 then F32.nan else F32.inf (decide (d < 0)))
      else round32 (d / 1))))) = _
  rw [if_neg one_ne_zero, e5]
  show F32.mul (F32.fin c) (expf (F32.mul (F32.fin (-0.5)) (round32 (y5 ^ 2)))) = _
  rw [e6]
  show F32.mul (F32.fin c) (expf (round32 (-0.5 * y6))) = _
  rw [e7]
  show F32.mul (F32.fin c) (round32 (Real.exp y7)) = _
  rw [exp_underflows hy7]
  show round32 (c * 0) = _
  rw [mul_zero, round32_zero]

theorem add_zero_mul_zero (v : ℝ) :
    F32.add (F32.fin 0) (F32.mul (F32.fin v) (F32.fin 0)) = F32.fin 0 := by
  show F32.add (F32.fin 0) (round32 (v * 0)) = _
  rw [mul_zero, round32_zero]
  show round32 (0 + 0) = _
  rw [add_zero, round32_zero]

theorem add_zero_zero : F32.add (F32.fin 0) (F32.fin 0) = F32.fin 0 := by
  show round32 (0 + 0) = _
  rw [add_zero, round32_zero]

theorem accumulate_far (a a' b b' : ℝ) (h1 : 50 ≤ a - b) (h2 : a - b ≤ 2000)
    (h1' : 50 ≤ a' - b') (h2' : a' - b' ≤ 2000) :
    accumulate_f32 ⟨F32.fin a, F32.fin a'⟩ (F32.fin 1) ⟨⟨F32.fin 0, F32.fin 0⟩, F32.fin 0⟩
      ⟨F32.fin b, F32.fin b'⟩ = ⟨⟨F32.fin 0, F32.fin 0⟩, F32.fin 0⟩ := by
  obtain ⟨d, hd, hd1, hd2⟩ := far_distance a a' b b' h1 h2 h1' h2'
  unfold accumulate_f32
  simp only [hd, far_weight_zero d hd1 hd2, add_zero_mul_zero, add_zero_zero]

theorem round_half_even_int (k : ℤ) : round_half_even (k : ℝ) = k := by
  unfold round_half_even
  simp

/-- Natural numbers below `2 ^ 24` are binary32 numbers: rounding leaves them as they are. -/
theorem round32_nat (n : ℕ) (h1 : 1 ≤ n) (h2 : n < 2 ^ 24) :
    round32 (n : ℝ) = F32.fin n := by
  have hlog : Int.log 2 |(n : ℝ)| = Nat.log 2 n := by
    rw [abs_of_nonneg (Nat.cast_nonneg n), Int.log_natCast]
  have hl : Nat.log 2 n < 24 := Nat.log_lt_of_lt_pow (by omega) h2
  have hue : ulp_exponent (n : ℝ) = -((23 - Nat.log 2 n : ℕ) : ℤ) := by
    unfold ulp_exponent
    rw [hlog, max_eq_left (by omega)]
    omega
  have hn : nearest32 (n : ℝ) = n := by
    unfold nearest32
    rw [hue, zpow_neg, zpow_natCast, div_inv_eq_mul]
    have hcast : (n : ℝ) * 2 ^ (23 - Nat.log 2 n) = ((n * 2 ^ (23 - Nat.log 2 n) : ℕ) : ℤ) := by
      push_cast
      rfl
    rw [hcast, round_half_even_int]
    push_cast
    field_simp
  unfold round32
  rw [hn, if_neg]
  rw [not_le, abs_of_nonneg (Nat.cast_nonneg n)]
  have : (n : ℝ) < 2 ^ 24 := by exact_mod_cast h2
  have h3 : (2 : ℝ) ^ 24 ≤ 2 ^ 128 := pow_le_pow_right₀ (by norm_num) (by norm_num)
  linarith

/-! ## Properties of the reference shift -/

/-- C1: for a bandwidth `h > 0` and an original set `O` of length `N ≥ 1`, the
reference shift of any target point `p` has its `x` coordinate between the least
and the greatest `x` of `O`, and its `y` coordinate between the least and the
greatest `y` of `O`; these bounds are coordinates of points of `O`. -/
theorem shift_point_in_bounding_box (p : Point) (O : List Point) (N : ℕ) (h : ℝ)
    (hh : 0 < h) (hN : 1 ≤ N) (hlen : O.length = N) :
    (list_min (O.map Point.x) ≤ (shift_point p O N h).x ∧
      (shift_point p O N h).x ≤ list_max (O.map Point.x)) ∧
    (list_min (O.map Point.y) ≤ (shift_point p O N h).y ∧
      (shift_point p O N h).y ≤ list_max (O.map Point.y)) ∧
    (list_min (O.map Point.x) ∈ O.map Point.x ∧ list_max (O.map Point.x) ∈ O.map Point.x ∧
      list_min (O.map Point.y) ∈ O.map Point.y ∧ list_max (O.map Point.y) ∈ O.map Point.y) := by
  have hne : O ≠ [] := by
    intro h0; subst h0; simp at hlen; omega
  have hx : O.map Point.x ≠ [] := by simpa using hne
  have hy : O.map Point.y ≠ [] := by simpa using hne
  refine ⟨⟨?_, ?_⟩, ⟨?_, ?_⟩, list_min_mem _ hx, list_max_mem _ hx, list_min_mem _ hy,
    list_max_mem _ hy⟩
  · exact shift_point_x_ge p O N hh hlen hN _
      (fun o ho => list_min_le _ _ (List.mem_map_of_mem _ ho))
  · exact shift_point_x_le p O N hh hlen hN _
      (fun o ho => le_list_max _ _ (List.mem_map_of_mem _ ho))
  · exact shift_point_y_ge p O N hh hlen hN _
      (fun o ho => list_min_le _ _ (List.mem_map_of_mem _ ho))
  · exact shift_point_y_le p O N hh hlen hN _
      (fun o ho => le_list_max _ _ (List.mem_map_of_mem _ ho))

theorem shift_point_in_bounding_box_witness :
    (0 : ℝ) < 3 ∧ 1 ≤ 4 ∧ scenario_A.length = 4 ∧
    ((list_min (scenario_A.map Point.x) ≤ (shift_point ⟨0, 0⟩ scenario_A 4 3).x ∧
      (shift_point ⟨0, 0⟩ scenario_A 4 3).x ≤ list_max (scenario_A.map Point.x)) ∧
    (list_min (scenario_A.map Point.y) ≤ (shift_point ⟨0, 0⟩ scenario_A 4 3).y ∧
      (shift_point ⟨0, 0⟩ scenario_A 4 3).y ≤ list_max (scenario_A.map Point.y)) ∧
    (list_min (scenario_A.map Point.x) ∈ scenario_A.map Point.x ∧
      list_max (scenario_A.map Point.x) ∈ scenario_A.map Point.x ∧
      list_min (scenario_A.map Point.y) ∈ scenario_A.map Point.y ∧
      list_max (scenario_A.map Point.y) ∈ scenario_A.map Point.y)) :=
  ⟨by norm_num, by norm_num, rfl,
    shift_point_in_bounding_box ⟨0, 0⟩ scenario_A 4 3 (by norm_num) (by norm_num) rfl⟩

/-- C9: for `N ≥ 1`, a bandwidth `h > 0` and a point `c`, when the original set and
the current set both consist of `N` copies of `c`, the reference shift of every
point of the current set is exactly `c`. -/
theorem shift_of_identical_points (N : ℕ) (h : ℝ) (c : Point) (i : ℕ)
    (hh : 0 < h) (hN : 1 ≤ N) (hi : i < N) :
    expected (List.replicate N c) (List.replicate N c) N h i = c := by
  unfold expected
  exact shift_point_constant _ c _ N hh (List.length_replicate N c) hN
    (fun o ho => List.eq_of_mem_replicate ho)

theorem shift_of_identical_points_witness :
    (0 : ℝ) < 3 ∧ 1 ≤ 4 ∧ 2 < 4 ∧
    expected (List.replicate 4 ⟨1, 1⟩) (List.replicate 4 ⟨1, 1⟩) 4 3 2 = ⟨1, 1⟩ :=
  ⟨by norm_num, by norm_num, by norm_num,
    shift_of_identical_points 4 3 ⟨1, 1⟩ 2 (by norm_num) (by norm_num) (by norm_num)⟩

/-! ## Scenario A -/

theorem scenario_A_shift_x (p : Point) :
    (shift_point p scenario_A 4 3).x
      = (weight_of p 3 ⟨1, 1⟩ + 2 * weight_of p 3 ⟨2, 2⟩ + 3 * weight_of p 3 ⟨3, 3⟩)
        / (weight_of p 3 ⟨0, 0⟩ + weight_of p 3 ⟨1, 1⟩ + weight_of p 3 ⟨2, 2⟩
            + weight_of p 3 ⟨3, 3⟩) := by
  show (inner_loop p scenario_A 4 3).shift.x / (inner_loop p scenario_A 4 3).scale = _
  rw [inner_loop_shift_x p scenario_A 4 3 rfl, inner_loop_scale p scenario_A 4 3 rfl]
  simp only [scenario_A, List.map_cons, List.map_nil, List.sum_cons, List.sum_nil]
  congr 1 <;> ring

theorem scenario_A_shift_y (p : Point) :
    (shift_point p scenario_A 4 3).y = (shift_point p scenario_A 4 3).x := by
  show (inner_loop p scenario_A 4 3).shift.y / (inner_loop p scenario_A 4 3).scale
    = (inner_loop p scenario_A 4 3).shift.x / (inner_loop p scenario_A 4 3).scale
  rw [inner_loop_shift_x p scenario_A 4 3 rfl, inner_loop_shift_y p scenario_A 4 3 rfl]
  simp only [scenario_A, List.map_cons, List.map_nil, List.sum_cons, List.sum_nil]

theorem scenario_A_box (p : Point) :
    0 < (shift_point p scenario_A 4 3).x ∧ (shift_point p scenario_A 4 3).x < 3 := by
  constructor
  · apply shift_point_x_gt p scenario_A 4 (by norm_num) rfl (by norm_num) 0
    · intro o ho
      simp only [scenario_A, List.mem_cons, List.mem_nil_iff, or_false] at ho
      rcases ho with rfl | rfl | rfl | rfl <;> norm_num
    · exact ⟨⟨1, 1⟩, by simp [scenario_A], by norm_num⟩
  · apply shift_point_x_lt p scenario_A 4 (by norm_num) rfl (by norm_num) 3
    · intro o ho
      simp only [scenario_A, List.mem_cons, List.mem_nil_iff, or_false] at ho
      rcases ho with rfl | rfl | rfl | rfl <;> norm_num
    · exact ⟨⟨1, 1⟩, by simp [scenario_A], by norm_num⟩

theorem weight_of_eq_of_sq (p o1 o2 : Point) (h : ℝ)
    (hd : (p.x - o1.x) ^ 2 + (p.y - o1.y) ^ 2 = (p.x - o2.x) ^ 2 + (p.y - o2.y) ^ 2) :
    weight_of p h o1 = weight_of p h o2 := by
  unfold weight_of euclidian_distance
  rw [hd]

theorem weight_of_lt_self (p o : Point) {h : ℝ} (hh : 0 < h) (hx : p.x ≠ o.x) :
    weight_of p h o < weight_of p h p := by
  unfold weight_of
  rw [euclidian_distance_self]
  exact gaussian_kernel_lt hh (euclidian_distance_ne_zero p o hx)

theorem scenario_A_inner_1 :
    1 < (shift_point ⟨1, 1⟩ scenario_A 4 3).x ∧ (shift_point ⟨1, 1⟩ scenario_A 4 3).x < 2 := by
  have h3 : (0 : ℝ) < 3 := by norm_num
  have e : weight_of ⟨1, 1⟩ 3 ⟨0, 0⟩ = weight_of ⟨1, 1⟩ 3 ⟨2, 2⟩ :=
    weight_of_eq_of_sq _ _ _ _ (by norm_num)
  have l : weight_of ⟨1, 1⟩ 3 ⟨3, 3⟩ < weight_of ⟨1, 1⟩ 3 ⟨1, 1⟩ :=
    weight_of_lt_self _ _ h3 (by norm_num)
  have p0 := weight_of_pos ⟨1, 1⟩ ⟨0, 0⟩ h3
  have p1 := weight_of_pos ⟨1, 1⟩ ⟨1, 1⟩ h3
  have p2 := weight_of_pos ⟨1, 1⟩ ⟨2, 2⟩ h3
  have p3 := weight_of_pos ⟨1, 1⟩ ⟨3, 3⟩ h3
  rw [scenario_A_shift_x, lt_div_iff₀ (by linarith), div_lt_iff₀ (by linarith)]
  constructor <;> linarith

theorem scenario_A_inner_2 :
    1 < (shift_point ⟨2, 2⟩ scenario_A 4 3).x ∧ (shift_point ⟨2, 2⟩ scenario_A 4 3).x < 2 := by
  have h3 : (0 : ℝ) < 3 := by norm_num
  have e : weight_of ⟨2, 2⟩ 3 ⟨1, 1⟩ = weight_of ⟨2, 2⟩ 3 ⟨3, 3⟩ :=
    weight_of_eq_of_sq _ _ _ _ (by norm_num)
  have l : weight_of ⟨2, 2⟩ 3 ⟨0, 0⟩ < weight_of ⟨2, 2⟩ 3 ⟨2, 2⟩ :=
    weight_of_lt_self _ _ h3 (by norm_num)
  have p0 := weight_of_pos ⟨2, 2⟩ ⟨0, 0⟩ h3
  have p1 := weight_of_pos ⟨2, 2⟩ ⟨1, 1⟩ h3
  have p2 := weight_of_pos ⟨2, 2⟩ ⟨2, 2⟩ h3
  have p3 := weight_of_pos ⟨2, 2⟩ ⟨3, 3⟩ h3
  rw [scenario_A_shift_x, lt_div_iff₀ (by linarith), div_lt_iff₀ (by linarith)]
  constructor <;> linarith

/-- A point of the diagonal strictly inside `(lo, hi)` differs from both `(lo, lo)`
and `(hi, hi)` and is closer than they are to the midpoint `c` of the two. -/
theorem closer_to_midpoint (q r : Point) (lo hi c : ℝ) (hc : c = (lo + hi) / 2)
    (hq1 : lo < q.x) (hq2 : q.x < hi) (hy : q.y = q.x)
    (hr : r = ⟨lo, lo⟩ ∨ r = ⟨hi, hi⟩) :
    q ≠ r ∧ euclidian_distance q ⟨c, c⟩ < euclidian_distance r ⟨c, c⟩ := by
  subst hc
  rcases hr with rfl | rfl
  · constructor
    · intro hqr
      rw [hqr] at hq1
      exact lt_irrefl _ hq1
    · apply euclidian_distance_lt
      · show (q.x - (lo + hi) / 2) ^ 2 < (lo - (lo + hi) / 2) ^ 2
        nlinarith
      · show (q.y - (lo + hi) / 2) ^ 2 < (lo - (lo + hi) / 2) ^ 2
        rw [hy]; nlinarith
  · constructor
    · intro hqr
      rw [hqr] at hq2
      exact lt_irrefl _ hq2
    · apply euclidian_distance_lt
      · show (q.x - (lo + hi) / 2) ^ 2 < (hi - (lo + hi) / 2) ^ 2
        nlinarith
      · show (q.y - (lo + hi) / 2) ^ 2 < (hi - (lo + hi) / 2) ^ 2
        rw [hy]; nlinarith

/-- C7: for the set `(0,0), (1,1), (2,2), (3,3)` as both original and current set,
`N = 4` and bandwidth `3`, the reference shift of each of the four points differs
from the point, has both coordinates strictly between `0` and `3`, and is
strictly closer to the centroid `(1.5, 1.5)` than the point is. -/
theorem scenario_A_moves_inward : ∀ i : Fin 4,
    expected scenario_A scenario_A 4 3 i ≠ scenario_A.getD i default ∧
    (0 < (expected scenario_A scenario_A 4 3 i).x ∧
      (expected scenario_A scenario_A 4 3 i).x < 3) ∧
    (0 < (expected scenario_A scenario_A 4 3 i).y ∧
      (expected scenario_A scenario_A 4 3 i).y < 3) ∧
    euclidian_distance (expected scenario_A scenario_A 4 3 i) ⟨1.5, 1.5⟩
      < euclidian_distance (scenario_A.getD i default) ⟨1.5, 1.5⟩ := by
  intro i
  have hbox : ∀ p : Point, (0 < (shift_point p scenario_A 4 3).x ∧
      (shift_point p scenario_A 4 3).x < 3) ∧
      (0 < (shift_point p scenario_A 4 3).y ∧ (shift_point p scenario_A 4 3).y < 3) := by
    intro p
    rw [scenario_A_shift_y]
    exact ⟨scenario_A_box p, scenario_A_box p⟩
  fin_cases i
  · have hp : scenario_A.getD 0 default = ⟨0, 0⟩ := rfl
    have key := closer_to_midpoint (shift_point ⟨0, 0⟩ scenario_A 4 3) ⟨0, 0⟩ 0 3 1.5
      (by norm_num) (scenario_A_box _).1 (scenario_A_box _).2 (scenario_A_shift_y _)
      (Or.inl rfl)
    simp only [expected]
    rw [hp]
    exact ⟨key.1, (hbox _).1, (hbox _).2, key.2⟩
  · have hp : scenario_A.getD 1 default = ⟨1, 1⟩ := rfl
    have key := closer_to_midpoint (shift_point ⟨1, 1⟩ scenario_A 4 3) ⟨1, 1⟩ 1 2 1.5
      (by norm_num) scenario_A_inner_1.1 scenario_A_inner_1.2 (scenario_A_shift_y _)
      (Or.inl rfl)
    simp only [expected]
    rw [hp]
    exact ⟨key.1, (hbox _).1, (hbox _).2, key.2⟩
  · have hp : scenario_A.getD 2 default = ⟨2, 2⟩ := rfl
    have key := closer_to_midpoint (shift_point ⟨2, 2⟩ scenario_A 4 3) ⟨2, 2⟩ 1 2 1.5
      (by norm_num) scenario_A_inner_2.1 scenario_A_inner_2.2 (scenario_A_shift_y _)
      (Or.inr rfl)
    simp only [expected]
    rw [hp]
    exact ⟨key.1, (hbox _).1, (hbox _).2, key.2⟩
  · have hp : scenario_A.getD 3 default = ⟨3, 3⟩ := rfl
    have key := closer_to_midpoint (shift_point ⟨3, 3⟩ scenario_A 4 3) ⟨3, 3⟩ 0 3 1.5
      (by norm_num) (scenario_A_box _).1 (scenario_A_box _).2 (scenario_A_shift_y _)
      (Or.inr rfl)
    simp only [expected]
    rw [hp]
    exact ⟨key.1, (hbox _).1, (hbox _).2, key.2⟩

/-! ## The verifier -/

theorem verify_from_cons_pos (points original : List Point) (N : ℕ) (h : ℝ)
    (shifted : List Point) (i : ℕ) (rest : List ℕ)
    (hw : within_tolerance points original N h shifted i) :
    verify_from points original N h shifted (i :: rest)
      = verify_from points original N h shifted rest := by
  unfold within_tolerance at hw
  rw [verify_from, if_neg]
  rintro (hx | hy)
  · exact absurd hw.1 (not_le.mpr hx)
  · exact absurd hw.2 (not_le.mpr hy)

theorem verify_from_cons_neg (points original : List Point) (N : ℕ) (h : ℝ)
    (shifted : List Point) (i : ℕ) (rest : List ℕ)
    (hw : ¬ within_tolerance points original N h shifted i) :
    verify_from points original N h shifted (i :: rest) = ⟨0, some i⟩ := by
  unfold within_tolerance at hw
  rw [verify_from, if_pos]
  by_contra hcon
  rw [not_or, not_lt, not_lt] at hcon
  exact hw hcon

theorem verify_from_range (points original : List Point) (N : ℕ) (h : ℝ)
    (shifted : List Point) (n s : ℕ) :
    ((verify_from points original N h shifted (List.range' s n)).ret = 1 ↔
        ∀ i, s ≤ i → i < s + n → within_tolerance points original N h shifted i) ∧
    ((verify_from points original N h shifted (List.range' s n)).ret = 1 ∨
      (verify_from points original N h shifted (List.range' s n)).ret = 0) ∧
    ((verify_from points original N h shifted (List.range' s n)).ret = 1 →
      (verify_from points original N h shifted (List.range' s n)).reported = none) ∧
    ((verify_from points original N h shifted (List.range' s n)).ret = 0 →
      ∃ i, (verify_from points original N h shifted (List.range' s n)).reported = some i ∧
        s ≤ i ∧ i < s + n ∧ ¬ within_tolerance points original N h shifted i ∧
        ∀ k, s ≤ k → k < i → within_tolerance points original N h shifted k) := by
  induction n generalizing s with
  | zero =>
    have hnil : verify_from points original N h shifted (List.range' s 0) = ⟨1, none⟩ := by
      rw [List.range'_zero, verify_from]
    rw [hnil]
    refine ⟨?_, Or.inl rfl, fun _ => rfl, ?_⟩
    · constructor
      · intro _ i h1 h2
        omega
      · intro _
        rfl
    · intro h0
      norm_num at h0
  | succ n ih =>
    rw [List.range'_succ]
    by_cases hw : within_tolerance points original N h shifted s
    · rw [verify_from_cons_pos _ _ _ _ _ _ _ hw]
      obtain ⟨h1, h2, h3, h4⟩ := ih (s + 1)
      refine ⟨?_, h2, h3, ?_⟩
      · rw [h1]
        constructor
        · intro hall i hi1 hi2
          rcases Nat.eq_or_lt_of_le hi1 with rfl | hlt
          · exact hw
          · exact hall i hlt (by omega)
        · intro hall i hi1 hi2
          exact hall i (by omega) (by omega)
      · intro h0
        obtain ⟨i, hr, hi1, hi2, hbad, hgood⟩ := h4 h0
        refine ⟨i, hr, by omega, by omega, hbad, ?_⟩
        intro k hk1 hk2
        rcases Nat.eq_or_lt_of_le hk1 with rfl | hlt
        · exact hw
        · exact hgood k hlt hk2
    · rw [verify_from_cons_neg _ _ _ _ _ _ _ hw]
      refine ⟨?_, Or.inr rfl, ?_, ?_⟩
      · constructor
        · intro h0
          norm_num at h0
        · intro hall
          exact absurd (hall s le_rfl (by omega)) hw
      · intro h0
        norm_num at h0
      · intro _
        exact ⟨s, rfl, le_rfl, by omega, hw, fun k hk1 hk2 => by omega⟩

theorem main_loop_break (cfg : Config) (kernel : Kernel) (s : LoopState)
    (hlast : ¬ s.iteration + 1 < cfg.MAX_ITERATIONS) :
    main_loop cfg kernel s = dispatch_and_count cfg kernel s := by
  have hit : (dispatch_and_count cfg kernel s).iteration = s.iteration + 1 := rfl
  rw [main_loop]
  simp only [loop_body, hit, if_neg hlast]
  simp

theorem main_loop_continue (cfg : Config) (kernel : Kernel) (s : LoopState)
    (hmore : s.iteration + 1 < cfg.MAX_ITERATIONS) :
    main_loop cfg kernel s
      = main_loop cfg kernel (feed_back (dispatch_and_count cfg kernel s)) := by
  have hit : (dispatch_and_count cfg kernel s).iteration = s.iteration + 1 := rfl
  rw [main_loop]
  simp only [loop_body, hit, if_pos hmore]
  simp

/-- The state at `break` when `r + 1` passes remain: every buffer in closed form. -/
theorem main_loop_closed (cfg : Config) (kernel : Kernel) (r : ℕ) :
    ∀ s : LoopState, s.device_points = s.points →
      s.device_original_points = s.original_points →
      cfg.MAX_ITERATIONS - s.iteration = (r : Int) + 1 →
      main_loop cfg kernel s =
        { points := (one_dispatch cfg kernel s.original_points)^[r] s.points
          original_points := s.original_points
          shifted_points := (one_dispatch cfg kernel s.original_points)^[r + 1] s.points
          device_points := (one_dispatch cfg kernel s.original_points)^[r] s.points
          device_original_points := s.original_points
          device_shifted_points :=
            (one_dispatch cfg kernel s.original_points)^[r + 1] s.points
          num_work_groups := cfg.NUM_VALUES / cfg.work_group_size
          iteration := cfg.MAX_ITERATIONS
          dispatches := s.dispatches + r + 1 } := by
  induction r with
  | zero =>
    intro s hdev horig hrem
    rw [main_loop_break cfg kernel s (by omega)]
    have hit : s.iteration + 1 = cfg.MAX_ITERATIONS := by omega
    cases s
    simp only [dispatch_and_count, dispatch_block, one_dispatch, Function.iterate_zero,
      Function.iterate_succ, id_eq, Function.comp_apply] at *
    subst hdev horig
    simp [hit]
  | succ r ih =>
    intro s hdev horig hrem
    rw [main_loop_continue cfg kernel s (by omega)]
    rw [ih (feed_back (dispatch_and_count cfg kernel s)) rfl horig
      (by
        have hit : (feed_back (dispatch_and_count cfg kernel s)).iteration
            = s.iteration + 1 := rfl
        rw [hit]; push_cast at hrem; omega)]
    cases s
    simp only [feed_back, dispatch_and_count, dispatch_block, one_dispatch,
      Function.iterate_succ, Function.comp_apply] at *
    subst hdev horig
    simp only [LoopState.mk.injEq, true_and, and_true]
    omega

theorem run_kernel_length (kernel : Kernel) (P O : List Point) (n : ℕ) (h : ℝ) :
    (run_kernel kernel P O n h).length = n := by
  simp [run_kernel]

theorem iterate_one_dispatch_length (cfg : Config) (kernel : Kernel) (O P : List Point)
    (hP : P.length = cfg.NUM_VALUES) (r : ℕ) :
    ((one_dispatch cfg kernel O)^[r] P).length = cfg.NUM_VALUES := by
  cases r with
  | zero => simpa using hP
  | succ r =>
    rw [Function.iterate_succ_apply' (one_dispatch cfg kernel O) r P]
    exact run_kernel_length _ _ _ _ _

/-- An invariant of the loop body is an invariant of the loop. -/
theorem main_loop_preserves (cfg : Config) (kernel : Kernel) (Inv : LoopState → Prop)
    (hstep : ∀ s, Inv s → Inv (loop_body cfg kernel s).1) :
    ∀ (n : ℕ) (s : LoopState), (cfg.MAX_ITERATIONS - s.iteration).toNat = n → Inv s →
      Inv (main_loop cfg kernel s) := by
  intro n
  induction n using Nat.strong_induction_on with
  | _ n ih =>
    intro s hn hs
    have hbody := hstep s hs
    by_cases hmore : s.iteration + 1 < cfg.MAX_ITERATIONS
    · rw [main_loop_continue cfg kernel s hmore]
      have hfst : (loop_body cfg kernel s).1 = feed_back (dispatch_and_count cfg kernel s) := by
        have hit : (dispatch_and_count cfg kernel s).iteration = s.iteration + 1 := rfl
        simp only [loop_body, hit, if_pos hmore]
      rw [hfst] at hbody
      have hit2 : (feed_back (dispatch_and_count cfg kernel s)).iteration
          = s.iteration + 1 := rfl
      exact ih (cfg.MAX_ITERATIONS - (s.iteration + 1)).toNat (by omega) _
        (by rw [hit2]) hbody
    · rw [main_loop_break cfg kernel s hmore]
      have hfst : (loop_body cfg kernel s).1 = dispatch_and_count cfg kernel s := by
        have hit : (dispatch_and_count cfg kernel s).iteration = s.iteration + 1 := rfl
        simp only [loop_body, hit, if_neg hmore]
      rw [hfst] at hbody
      exact hbody

theorem loop_body_step (cfg : Config) (kernel : Kernel) (P0 : List Point) (s : LoopState)
    (hs : LoopInv cfg P0 s) :
    LoopInv cfg P0 (loop_body cfg kernel s).1 ∧
    (loop_body cfg kernel s).1.original_points = s.original_points ∧
    (loop_body cfg kernel s).1.shifted_points
      = run_kernel kernel s.device_points s.device_original_points
          cfg.NUM_VALUES cfg.BANDWIDTH ∧
    ((loop_body cfg kernel s).2 = true ↔ s.iteration + 1 < cfg.MAX_ITERATIONS) ∧
    ((loop_body cfg kernel s).2 = true →
      (loop_body cfg kernel s).1.points = (loop_body cfg kernel s).1.shifted_points) ∧
    ((loop_body cfg kernel s).2 = false → (loop_body cfg kernel s).1.points = s.points) := by
  obtain ⟨h1, h2, h3, h4⟩ := hs
  have h5 : P0.length = cfg.NUM_VALUES := h1 ▸ h3
  have hit : (dispatch_and_count cfg kernel s).iteration = s.iteration + 1 := rfl
  by_cases hmore : s.iteration + 1 < cfg.MAX_ITERATIONS
  · simp only [loop_body, hit, if_pos hmore]
    simp [LoopInv, feed_back, dispatch_and_count, dispatch_block, run_kernel_length, h1, h5,
      hmore]
  · simp only [loop_body, hit, if_neg hmore]
    simp [LoopInv, dispatch_and_count, dispatch_block, run_kernel_length, h1, h2, h5, hmore]

theorem init_state_inv (cfg : Config) (P0 junk_host junk_device : List Point)
    (hP0 : P0.length = cfg.NUM_VALUES) (hjunk : junk_host.length = cfg.NUM_VALUES) :
    LoopInv cfg P0 (init_state P0 junk_host junk_device) :=
  ⟨rfl, hP0, hP0, hjunk⟩

theorem run_kernel_getD (kernel : Kernel) (P O : List Point) (n : ℕ) (h : ℝ) (i : ℕ)
    (hi : i < n) : (run_kernel kernel P O n h).getD i default = kernel P O n h i := by
  simp [run_kernel, List.getD_eq_getElem?_getD, List.getElem?_map, List.getElem?_range hi]

/-- The verifier accepts the output of a dispatch of the reference kernel. -/
theorem verify_reference_output (P O : List Point) (n : ℕ) (h : ℝ) :
    (verify_mean_shift P O n h (run_kernel reference_kernel P O n h)).ret = 1 := by
  unfold verify_mean_shift
  rw [List.range_eq_range']
  apply (verify_from_range P O n h _ n 0).1.mpr
  intro i _ hi
  unfold within_tolerance
  rw [run_kernel_getD reference_kernel P O n h i (by omega)]
  simp only [reference_kernel, sub_self, abs_zero]
  norm_num

theorem single_point_dispatch (cfg : Config) (p : Point) (hN : cfg.NUM_VALUES = 1)
    (hh : 0 < cfg.BANDWIDTH) :
    one_dispatch cfg reference_kernel [p] [p] = [p] := by
  unfold one_dispatch run_kernel
  have hr : List.range 1 = [0] := rfl
  rw [hN, hr]
  simp only [List.map_cons, List.map_nil, reference_kernel, expected,
    List.getD_cons_zero]
  rw [shift_point_constant p p [p] 1 hh rfl le_rfl (fun o ho => by simpa using ho)]

/-! ## Properties of the loop of `main` -/

/-- C4: for an iteration budget `MAX_ITERATIONS ≥ 1`, any kernel, any initial point
set `P0` and any initial content of the output buffers, the loop of `main` breaks
after exactly `MAX_ITERATIONS` kernel dispatches and with
`iteration = MAX_ITERATIONS`: the dispatch counter is `MAX_ITERATIONS`, and the
buffers are those that `MAX_ITERATIONS` dispatches produce, each run on the output
of the one before it: `shifted_points` and `device_shifted_points` are the
`MAX_ITERATIONS`-fold dispatch of `P0`, and `points`, the input of the last
dispatch, is the `(MAX_ITERATIONS - 1)`-fold dispatch of `P0`. Nothing of this
depends on the values the kernel produces. -/
theorem loop_dispatch_count (cfg : Config) (kernel : Kernel)
    (P0 junk_host junk_device : List Point) (hmax : 1 ≤ cfg.MAX_ITERATIONS) :
    ((main_loop cfg kernel (init_state P0 junk_host junk_device)).dispatches : Int)
      = cfg.MAX_ITERATIONS ∧
    (main_loop cfg kernel (init_state P0 junk_host junk_device)).iteration
      = cfg.MAX_ITERATIONS ∧
    (main_loop cfg kernel (init_state P0 junk_host junk_device)).shifted_points
      = (fun P => run_kernel kernel P P0 cfg.NUM_VALUES cfg.BANDWIDTH)^[
          cfg.MAX_ITERATIONS.toNat] P0 ∧
    (main_loop cfg kernel (init_state P0 junk_host junk_device)).device_shifted_points
      = (fun P => run_kernel kernel P P0 cfg.NUM_VALUES cfg.BANDWIDTH)^[
          cfg.MAX_ITERATIONS.toNat] P0 ∧
    (main_loop cfg kernel (init_state P0 junk_host junk_device)).points
      = (fun P => run_kernel kernel P P0 cfg.NUM_VALUES cfg.BANDWIDTH)^[
          (cfg.MAX_ITERATIONS - 1).toNat] P0 := by
  have hrem : cfg.MAX_ITERATIONS - (init_state P0 junk_host junk_device).iteration
      = (((cfg.MAX_ITERATIONS - 1).toNat : ℕ) : Int) + 1 := by
    simp only [init_state]; omega
  have hsucc : cfg.MAX_ITERATIONS.toNat = (cfg.MAX_ITERATIONS - 1).toNat + 1 := by omega
  have hF : (fun P => run_kernel kernel P P0 cfg.NUM_VALUES cfg.BANDWIDTH)
      = one_dispatch cfg kernel P0 := rfl
  rw [main_loop_closed cfg kernel (cfg.MAX_ITERATIONS - 1).toNat _ rfl rfl hrem, hF, hsucc]
  refine ⟨?_, rfl, rfl, rfl, rfl⟩
  simp only [init_state]
  push_cast
  omega

theorem loop_dispatch_count_witness :
    1 ≤ source_config.MAX_ITERATIONS ∧
    (((main_loop source_config reference_kernel
        (init_state (initial_points source_config.NUM_VALUES) [] [])).dispatches : Int)
      = source_config.MAX_ITERATIONS ∧
    (main_loop source_config reference_kernel
        (init_state (initial_points source_config.NUM_VALUES) [] [])).iteration
      = source_config.MAX_ITERATIONS ∧
    (main_loop source_config reference_kernel
        (init_state (initial_points source_config.NUM_VALUES) [] [])).shifted_points
      = (fun P => run_kernel reference_kernel P (initial_points source_config.NUM_VALUES)
          source_config.NUM_VALUES source_config.BANDWIDTH)^[
          source_config.MAX_ITERATIONS.toNat] (initial_points source_config.NUM_VALUES) ∧
    (main_loop source_config reference_kernel
        (init_state (initial_points source_config.NUM_VALUES) [] [])).device_shifted_points
      = (fun P => run_kernel reference_kernel P (initial_points source_config.NUM_VALUES)
          source_config.NUM_VALUES source_config.BANDWIDTH)^[
          source_config.MAX_ITERATIONS.toNat] (initial_points source_config.NUM_VALUES) ∧
    (main_loop source_config reference_kernel
        (init_state (initial_points source_config.NUM_VALUES) [] [])).points
      = (fun P => run_kernel reference_kernel P (initial_points source_config.NUM_VALUES)
          source_config.NUM_VALUES source_config.BANDWIDTH)^[
          (source_config.MAX_ITERATIONS - 1).toNat]
          (initial_points source_config.NUM_VALUES)) :=
  ⟨by norm_num [source_config],
    loop_dispatch_count source_config reference_kernel
      (initial_points source_config.NUM_VALUES) [] [] (by norm_num [source_config])⟩

/-- C5 (as the code has it): with `MAX_ITERATIONS = 0` the loop of `main` still
performs one dispatch before it breaks: the final `shifted_points` is the result
of one dispatch on the initial set, `points` is the initial set, and `iteration`
is `1`, exactly as with `MAX_ITERATIONS = 1`. -/
theorem zero_budget_runs_one_dispatch (kernel : Kernel) (N wgs : ℕ) (h : ℝ)
    (P0 junk_host junk_device : List Point) :
    (main_loop ⟨N, 0, h, wgs⟩ kernel (init_state P0 junk_host junk_device)).shifted_points
      = run_kernel kernel P0 P0 N h ∧
    (main_loop ⟨N, 0, h, wgs⟩ kernel (init_state P0 junk_host junk_device)).points = P0 ∧
    (main_loop ⟨N, 0, h, wgs⟩ kernel (init_state P0 junk_host junk_device)).dispatches = 1 ∧
    (main_loop ⟨N, 0, h, wgs⟩ kernel (init_state P0 junk_host junk_device)).iteration = 1 ∧
    main_loop ⟨N, 0, h, wgs⟩ kernel (init_state P0 junk_host junk_device)
      = main_loop ⟨N, 1, h, wgs⟩ kernel (init_state P0 junk_host junk_device) := by
  rw [main_loop_break ⟨N, 0, h, wgs⟩ kernel _ (by simp [init_state]),
    main_loop_break ⟨N, 1, h, wgs⟩ kernel _ (by simp [init_state])]
  simp [dispatch_and_count, dispatch_block, init_state]

/-- C5 (as stated) fails: started on the two points `(0,0)`, `(1,1)` with bandwidth `1`
and `MAX_ITERATIONS = 0`, the loop of `main` run with the reference shift as its
kernel ends with a `shifted_points` that is not the initial set. -/
theorem zero_budget_output_differs :
    (main_loop ⟨2, 0, 1, 1⟩ reference_kernel
      (init_state two_points two_points two_points)).shifted_points ≠ two_points := by
  rw [main_loop_break ⟨2, 0, 1, 1⟩ reference_kernel _ (by simp [init_state])]
  simp only [dispatch_and_count, dispatch_block, init_state]
  intro heq
  have h0 := congrArg (fun l : List Point => (l.getD 0 default).x) heq
  simp only [run_kernel_getD reference_kernel two_points two_points 2 1 0 (by norm_num),
    reference_kernel, expected] at h0
  have hpos : 0 < (shift_point (two_points.getD 0 default) two_points 2 1).x := by
    apply shift_point_x_gt _ two_points 2 (by norm_num) rfl (by norm_num) 0
    · intro o ho
      simp only [two_points, List.mem_cons, List.mem_nil_iff, or_false] at ho
      rcases ho with rfl | rfl <;> norm_num
    · exact ⟨⟨1, 1⟩, by simp [two_points], by norm_num⟩
  rw [h0] at hpos
  simp [two_points] at hpos

/-- C6: with `original_points` the clone `P0` of the initial points and all three
host buffers of length `NUM_VALUES`: the state before the loop satisfies this
invariant, every pass through the loop body preserves it, and so does the whole
loop. A pass leaves `original_points` as it was, replaces `shifted_points` by the
output of the dispatch (whatever it held before), and replaces `points` by the
new `shifted_points` exactly when another iteration remains
(`iteration + 1 < MAX_ITERATIONS`); otherwise `points` is left as it was. -/
theorem loop_invariant (cfg : Config) (kernel : Kernel)
    (P0 junk_host junk_device : List Point)
    (hP0 : P0.length = cfg.NUM_VALUES) (hjunk : junk_host.length = cfg.NUM_VALUES) :
    LoopInv cfg P0 (init_state P0 junk_host junk_device) ∧
    (∀ s : LoopState, LoopInv cfg P0 s →
      LoopInv cfg P0 (loop_body cfg kernel s).1 ∧
      (loop_body cfg kernel s).1.original_points = s.original_points ∧
      (loop_body cfg kernel s).1.shifted_points
        = run_kernel kernel s.device_points s.device_original_points
            cfg.NUM_VALUES cfg.BANDWIDTH ∧
      ((loop_body cfg kernel s).2 = true ↔ s.iteration + 1 < cfg.MAX_ITERATIONS) ∧
      ((loop_body cfg kernel s).2 = true →
        (loop_body cfg kernel s).1.points = (loop_body cfg kernel s).1.shifted_points) ∧
      ((loop_body cfg kernel s).2 = false →
        (loop_body cfg kernel s).1.points = s.points)) ∧
    LoopInv cfg P0 (main_loop cfg kernel (init_state P0 junk_host junk_device)) := by
  have hinit := init_state_inv cfg P0 junk_host junk_device hP0 hjunk
  refine ⟨hinit, fun s hs => loop_body_step cfg kernel P0 s hs, ?_⟩
  exact main_loop_preserves cfg kernel (LoopInv cfg P0)
    (fun s hs => (loop_body_step cfg kernel P0 s hs).1) _ _ rfl hinit

theorem loop_invariant_witness :
    (initial_points source_config.NUM_VALUES).length = source_config.NUM_VALUES ∧
    (List.replicate source_config.NUM_VALUES (default : Point)).length
      = source_config.NUM_VALUES ∧
    (LoopInv source_config (initial_points source_config.NUM_VALUES)
      (init_state (initial_points source_config.NUM_VALUES)
        (List.replicate source_config.NUM_VALUES default) []) ∧
    (∀ s : LoopState, LoopInv source_config (initial_points source_config.NUM_VALUES) s →
      LoopInv source_config (initial_points source_config.NUM_VALUES)
        (loop_body source_config reference_kernel s).1 ∧
      (loop_body source_config reference_kernel s).1.original_points = s.original_points ∧
      (loop_body source_config reference_kernel s).1.shifted_points
        = run_kernel reference_kernel s.device_points s.device_original_points
            source_config.NUM_VALUES source_config.BANDWIDTH ∧
      ((loop_body source_config reference_kernel s).2 = true ↔
        s.iteration + 1 < source_config.MAX_ITERATIONS) ∧
      ((loop_body source_config reference_kernel s).2 = true →
        (loop_body source_config reference_kernel s).1.points
          = (loop_body source_config reference_kernel s).1.shifted_points) ∧
      ((loop_body source_config reference_kernel s).2 = false →
        (loop_body source_config reference_kernel s).1.points = s.points)) ∧
    LoopInv source_config (initial_points source_config.NUM_VALUES)
      (main_loop source_config reference_kernel
        (init_state (initial_points source_config.NUM_VALUES)
          (List.replicate source_config.NUM_VALUES default) []))) :=
  ⟨by simp [initial_points], by simp,
    loop_invariant source_config reference_kernel (initial_points source_config.NUM_VALUES)
      (List.replicate source_config.NUM_VALUES default) []
      (by simp [initial_points]) (by simp)⟩

/-- C8: for `N = 1` (one point `p`, both the original set and the initial current
set), any bandwidth `h > 0` and any iteration budget, the loop of `main` run with
the reference shift as its kernel ends with `shifted_points = [p]` and
`points = [p]`: the output equals the input after any number of iterations. -/
theorem single_point_is_fixed (p : Point) (h : ℝ) (MAX_ITERATIONS : Int) (wgs : ℕ)
    (junk_host junk_device : List Point) (hh : 0 < h) :
    (main_loop ⟨1, MAX_ITERATIONS, h, wgs⟩ reference_kernel
        (init_state [p] junk_host junk_device)).shifted_points = [p] ∧
    (main_loop ⟨1, MAX_ITERATIONS, h, wgs⟩ reference_kernel
        (init_state [p] junk_host junk_device)).points = [p] := by
  have hfix := single_point_dispatch ⟨1, MAX_ITERATIONS, h, wgs⟩ p rfl hh
  by_cases hmax : 1 ≤ MAX_ITERATIONS
  · have hrem : (⟨1, MAX_ITERATIONS, h, wgs⟩ : Config).MAX_ITERATIONS
        - (init_state [p] junk_host junk_device).iteration
        = (((MAX_ITERATIONS - 1).toNat : ℕ) : Int) + 1 := by
      simp only [init_state]; omega
    rw [main_loop_closed _ reference_kernel (MAX_ITERATIONS - 1).toNat _ rfl rfl hrem]
    simp only [init_state]
    exact ⟨Function.iterate_fixed hfix _, Function.iterate_fixed hfix _⟩
  · rw [main_loop_break _ reference_kernel _ (by simp only [init_state]; omega)]
    simp only [dispatch_and_count, dispatch_block, init_state]
    exact ⟨hfix, trivial⟩

theorem single_point_is_fixed_witness :
    (0 : ℝ) < 3 ∧
    ((main_loop ⟨1, 100, 3, 1⟩ reference_kernel
        (init_state [⟨5, 7⟩] [⟨0, 0⟩] [⟨0, 0⟩])).shifted_points = [⟨5, 7⟩] ∧
    (main_loop ⟨1, 100, 3, 1⟩ reference_kernel
        (init_state [⟨5, 7⟩] [⟨0, 0⟩] [⟨0, 0⟩])).points = [⟨5, 7⟩]) :=
  ⟨by norm_num,
    single_point_is_fixed ⟨5, 7⟩ 3 100 1 [⟨0, 0⟩] [⟨0, 0⟩] (by norm_num)⟩

/-- C10: let `F` be one dispatch against the original set `P0`. For
`MAX_ITERATIONS ≥ 1` the loop of `main` exits with
`points = F^(MAX_ITERATIONS - 1) P0`, `shifted_points = F^MAX_ITERATIONS P0` and
`original_points = P0`, hence `shifted_points = F points`; and when the kernel
is the reference shift, `verify_mean_shift` called on these buffers as `main`
calls it returns `1`. -/
theorem final_buffers_and_verifier (cfg : Config) (kernel : Kernel)
    (P0 junk_host junk_device : List Point) (hmax : 1 ≤ cfg.MAX_ITERATIONS)
    (hP0 : P0.length = cfg.NUM_VALUES) :
    (main_loop cfg kernel (init_state P0 junk_host junk_device)).points
      = (one_dispatch cfg kernel P0)^[(cfg.MAX_ITERATIONS - 1).toNat] P0 ∧
    (main_loop cfg kernel (init_state P0 junk_host junk_device)).shifted_points
      = (one_dispatch cfg kernel P0)^[cfg.MAX_ITERATIONS.toNat] P0 ∧
    (main_loop cfg kernel (init_state P0 junk_host junk_device)).original_points = P0 ∧
    (main_loop cfg kernel (init_state P0 junk_host junk_device)).shifted_points
      = one_dispatch cfg kernel P0
          (main_loop cfg kernel (init_state P0 junk_host junk_device)).points ∧
    (verify_mean_shift
      (main_loop cfg reference_kernel (init_state P0 junk_host junk_device)).points
      (main_loop cfg reference_kernel (init_state P0 junk_host junk_device)).original_points
      cfg.NUM_VALUES cfg.BANDWIDTH
      (main_loop cfg reference_kernel
        (init_state P0 junk_host junk_device)).shifted_points).ret = 1 := by
  have hrem : cfg.MAX_ITERATIONS - (init_state P0 junk_host junk_device).iteration
      = (((cfg.MAX_ITERATIONS - 1).toNat : ℕ) : Int) + 1 := by
    simp only [init_state]; omega
  have hsucc : cfg.MAX_ITERATIONS.toNat = (cfg.MAX_ITERATIONS - 1).toNat + 1 := by omega
  rw [main_loop_closed cfg kernel (cfg.MAX_ITERATIONS - 1).toNat _ rfl rfl hrem,
    main_loop_closed cfg reference_kernel (cfg.MAX_ITERATIONS - 1).toNat _ rfl rfl hrem]
  simp only [init_state]
  rw [hsucc]
  refine ⟨trivial, rfl, trivial, ?_, ?_⟩
  · exact Function.iterate_succ_apply' _ _ _
  · rw [Function.iterate_succ_apply' (one_dispatch cfg reference_kernel P0)]
    exact verify_reference_output _ _ _ _

theorem final_buffers_and_verifier_witness :
    1 ≤ source_config.MAX_ITERATIONS ∧
    (initial_points source_config.NUM_VALUES).length = source_config.NUM_VALUES ∧
    ((main_loop source_config reference_kernel
        (init_state (initial_points source_config.NUM_VALUES) [] [])).points
      = (one_dispatch source_config reference_kernel
          (initial_points source_config.NUM_VALUES))^[(source_config.MAX_ITERATIONS - 1).toNat]
          (initial_points source_config.NUM_VALUES) ∧
    (main_loop source_config reference_kernel
        (init_state (initial_points source_config.NUM_VALUES) [] [])).shifted_points
      = (one_dispatch source_config reference_kernel
          (initial_points source_config.NUM_VALUES))^[source_config.MAX_ITERATIONS.toNat]
          (initial_points source_config.NUM_VALUES) ∧
    (main_loop source_config reference_kernel
        (init_state (initial_points source_config.NUM_VALUES) [] [])).original_points
      = initial_points source_config.NUM_VALUES ∧
    (main_loop source_config reference_kernel
        (init_state (initial_points source_config.NUM_VALUES) [] [])).shifted_points
      = one_dispatch source_config reference_kernel (initial_points source_config.NUM_VALUES)
          (main_loop source_config reference_kernel
            (init_state (initial_points source_config.NUM_VALUES) [] [])).points ∧
    (verify_mean_shift
      (main_loop source_config reference_kernel
        (init_state (initial_points source_config.NUM_VALUES) [] [])).points
      (main_loop source_config reference_kernel
        (init_state (initial_points source_config.NUM_VALUES) [] [])).original_points
      source_config.NUM_VALUES source_config.BANDWIDTH
      (main_loop source_config reference_kernel
        (init_state (initial_points source_config.NUM_VALUES) [] [])).shifted_points).ret
      = 1) :=
  ⟨by norm_num [source_config], by simp [initial_points],
    final_buffers_and_verifier source_config reference_kernel
      (initial_points source_config.NUM_VALUES) [] []
      (by norm_num [source_config]) (by simp [initial_points])⟩

end MeanShiftGPU
